import Mathlib

/-!
Verification of the single-precision exponential / trigonometric entry points
of the llvm-libc math engine (`expf`, `exp2f`, `expm1f` in two variants, and
`sincosf`).

The embedding works at two levels:

* bit level: a `float` is its IEEE-754 binary32 bit pattern, a `ℕ` below
  `2^32`; all branch conditions of the C sources are integer comparisons on
  the pattern, exactly as in the sources;
* value level: the finite value denoted by a pattern is a rational number,
  and every floating-point arithmetic operation is modelled as exact rational
  arithmetic followed by IEEE-754 rounding (`fround`) at the binary32 or
  binary64 format, parameterised by the active rounding mode.

The rounding mode is an explicit argument (the C sources read it with
`fputil::get_round()`), and the `errno` / exception side effects are explicit
fields of each result record.
-/

/-- The four IEEE-754 / C `fenv` rounding modes (`FE_TONEAREST`, `FE_UPWARD`,
`FE_DOWNWARD`, `FE_TOWARDZERO`). -/
inductive RMode where
  | nearest
  | upward
  | downward
  | towardzero
  deriving DecidableEq, Repr

/-- The two `errno` codes set by the math engine. -/
inductive Errno where
  | ERANGE
  | EDOM
  deriving DecidableEq, Repr

instance : Fintype RMode :=
  ⟨⟨{RMode.nearest, RMode.upward, RMode.downward, RMode.towardzero}, by decide⟩,
    by intro m; cases m <;> decide⟩

/-- Floor of the base-2 logarithm of a nonzero rational: the unique `k` with
`2^k ≤ |q| < 2^(k+1)`.  Computed from the sizes of numerator and denominator
and corrected by one if needed. -/
def ilog2 (q : ℚ) : ℤ :=
  let k : ℤ := (Nat.log 2 q.num.natAbs : ℤ) - (Nat.log 2 q.den : ℤ)
  if (2 : ℚ) ^ k ≤ |q| then k else k - 1

/-- Rounding of a rational to an integer under a rounding mode.  `nearest` is
round-to-nearest with ties to even, `upward` is `ceil`, `downward` is `floor`,
and `towardzero` truncates. -/
def roundInt (m : RMode) (q : ℚ) : ℤ :=
  match m with
  | RMode.nearest =>
      if q - ⌊q⌋ < 1/2 then ⌊q⌋
      else if 1/2 < q - ⌊q⌋ then ⌊q⌋ + 1
      else if ⌊q⌋ % 2 = 0 then ⌊q⌋ else ⌊q⌋ + 1
  | RMode.upward => ⌈q⌉
  | RMode.downward => ⌊q⌋
  | RMode.towardzero => if 0 ≤ q then ⌊q⌋ else ⌈q⌉

/-- IEEE-754 binary rounding of an exact rational to a floating-point format
with `p` bits of precision and least grid (subnormal) exponent `emin`, under
rounding mode `m`.  The grid exponent is `max emin (ilog2 q - (p - 1))`; the
scaled value is rounded to an integer under `m` and scaled back.  Overflow to
infinity is not modelled; every use in this file is on a branch where the
C source guarantees the result is finite. -/
def fround (p : ℕ) (emin : ℤ) (m : RMode) (q : ℚ) : ℚ :=
  if q = 0 then 0
  else (roundInt m (q * (2 : ℚ) ^ (-(max emin (ilog2 q - ((p : ℤ) - 1))))) : ℚ) *
    (2 : ℚ) ^ (max emin (ilog2 q - ((p : ℤ) - 1)))

/-- Rounding an exact rational to binary32 (single precision). -/
def round32v (m : RMode) (q : ℚ) : ℚ := fround 24 (-149) m q

/-- Rounding an exact rational to binary64 (double precision). -/
def round64v (m : RMode) (q : ℚ) : ℚ := fround 53 (-1074) m q

/-- `q` is exactly representable in the format with `p` precision bits and
least grid exponent `emin`. -/
def IsRep (p : ℕ) (emin : ℤ) (q : ℚ) : Prop :=
  ∃ n : ℤ, ∃ g : ℤ, q = (n : ℚ) * (2 : ℚ) ^ g ∧ n.natAbs < 2 ^ p ∧ emin ≤ g

/-- Truncation toward zero, the C++ `static_cast<int>` conversion from a
floating value. -/
def truncZ (q : ℚ) : ℤ := roundInt RMode.towardzero q

/-- Modelled from the spec: `FPBits.h` is absent from the tree.  The finite
value denoted by a binary32 bit pattern: `(-1)^s * 0.mant * 2^-126` for
subnormals (biased exponent field 0), `(-1)^s * 1.mant * 2^(e-127)` for
normals. -/
def f32_to_rat (b : ℕ) : ℕ → ℚ
  | 0 => (if 2 ^ 31 ≤ b then (-1 : ℚ) else 1) * (b % 2 ^ 23 : ℕ) * (2 : ℚ) ^ (-(149 : ℤ))
  | e + 1 => (if 2 ^ 31 ≤ b then (-1 : ℚ) else 1) * ((2 ^ 23 + b % 2 ^ 23 : ℕ) : ℚ) *
      (2 : ℚ) ^ ((e + 1 : ℤ) - 150)

/-- The finite rational value of a binary32 bit pattern. -/
def toVal (b : ℕ) : ℚ := f32_to_rat b (b / 2 ^ 23 % 256)

/-- Modelled from the spec: inverse of the FloatBits view on finite values;
encodes a representable rational back into its binary32 bit pattern
(normal, subnormal or zero; used only on exactly representable results). -/
def valToBits32 (q : ℚ) : ℕ :=
  if q = 0 then 0
  else
    let s : ℕ := if q < 0 then 2 ^ 31 else 0
    let E : ℤ := max (-149) (ilog2 q - 23)
    let n : ℕ := (⌊|q| * (2 : ℚ) ^ (-E)⌋).toNat
    if 2 ^ 24 ≤ n then s + (E + 151).toNat * 2 ^ 23
    else if 2 ^ 23 ≤ n then s + (E + 150).toNat * 2 ^ 23 + (n - 2 ^ 23)
    else s + n

/-- Sign-bit flip: the C float negation `-x` on the bit pattern. -/
def fnegBits (b : ℕ) : ℕ := if b < 2 ^ 31 then b + 2 ^ 31 else b - 2 ^ 31

/-- Set the quiet bit (bit 22) of a NaN pattern. -/
def setQuiet (b : ℕ) : ℕ := if b / 2 ^ 22 % 2 = 1 then b else b + 2 ^ 22

/-- Modelled from the spec: result of the C expression `x + inf` (float
addition with `+∞`) as it appears in the overflow branches.  Finite or
infinite `x` gives `+∞`; a NaN operand propagates as a quiet NaN (spec §4.4:
"NaN input → propagate a quiet NaN, payload derived from input"). -/
def addWithInf (b : ℕ) : ℕ :=
  if 0x7f800000 < b % 2 ^ 31 then setQuiet b else 0x7f800000

/-- Modelled from the spec: result of `x + FPBits::build_nan(1 << 22)` in
`sincosf` for `x` infinite or NaN: a NaN operand propagates quieted,
otherwise the sum with the quiet NaN `0x7fc00000` is that NaN. -/
def addNanConst (b : ℕ) : ℕ :=
  if 0x7f800000 < b % 2 ^ 31 then setQuiet b else 0x7fc00000

/-- Float addition on bit patterns of finite operands: exact rational sum,
rounded to binary32 under the active mode, re-encoded. -/
def fadd32 (m : RMode) (a b : ℕ) : ℕ :=
  valToBits32 (round32v m (toVal a + toVal b))

/-- Single-precision fused multiply-add on bit patterns of finite operands:
one binary32 rounding of the exact `a*b + c` (`fputil::fma` /
`fputil::multiply_add` on `float`). -/
def fma32 (m : RMode) (a b c : ℕ) : ℕ :=
  valToBits32 (round32v m (toVal a * toVal b + toVal c))

/-- Modelled from the spec: `fputil::polyeval` (`PolyEval.h` is absent from
the tree; spec §3: "evaluation order is fixed, Horner's scheme, low-degree
term last").  Each Horner step is a binary64 multiplication and addition,
each correctly rounded under the active mode; coefficients are listed from
the constant term up, as at the call sites. -/
def polyeval64 (m : RMode) (x : ℚ) : List ℚ → ℚ
  | [] => 0
  | [a] => a
  | a :: rest => round64v m (round64v m (x * polyeval64 m x rest) + a)

/-- Result of a unary float entry point: the returned bit pattern and the
`errno` side effect (`none` when `errno` is not written). -/
structure ExpRes where
  ret : ℕ
  err : Option Errno
  deriving DecidableEq, Repr

/-- Result of `sincosf`: the two stored bit patterns, the `errno` side effect
and whether the `FE_INVALID` exception flag was raised. -/
structure SincosRes where
  sin : ℕ
  cos : ℕ
  err : Option Errno
  invalid : Bool
  deriving DecidableEq, Repr

/-- Modelled from the spec: lookup table `EXP_M1` of `common_constants.h`
(absent from the tree).  Per the sources it stores `exp(hi)` for the integer
part `hi = index - 104`; only the entry `exp(0) = 1`, which is exact in
binary64, is forced by the spec, so the model is partial. -/
def EXP_M1q (i : ℤ) : Option ℚ := if i = 104 then some 1 else none

/-- Modelled from the spec: lookup table `EXP_M2` of `common_constants.h`
(absent from the tree).  It stores `exp(mid)` for `mid = index / 2^7`; only
the exact entry `exp(0) = 1` is forced by the spec. -/
def EXP_M2q (i : ℤ) : Option ℚ := if i = 0 then some 1 else none

/-! ### The `expf` entry point (src/math/generic/expf.cpp) -/

/-- General path of `expf` (lines 68-103 of the source): range reduction
`x = hi + mid + lo` with `hi + mid = round(x * 2^7) * 2^-7` (round-to-nearest
obtained by adding a sign-dependent `0.5` before the truncating int cast),
table lookups `EXP_M1[x_hi >> 7]`, `EXP_M2[x_hi & 0x7f]`, and a degree-4
minimax polynomial for `exp(lo)`.  Returns `none` where a table entry is not
determined by the spec (the tables live in `common_constants.h`, absent from
the tree). -/
def expf_general (b : ℕ) (m : RMode) : Option ExpRes :=
  let x := toVal b
  -- int x_hi = static_cast<int>(x * 0x1.0p7f + (xbits.get_sign() ? -0.5f : 0.5f));
  let x_hi : ℤ := truncZ (round32v m (round32v m (x * 128) +
    (if 2 ^ 31 ≤ b then -(1/2 : ℚ) else 1/2)))
  -- x -= static_cast<float>(x_hi) * 0x1.0p-7f;  double xd = x;
  let xd := round32v m (x - round32v m (round32v m (x_hi : ℚ) * (1/128)))
  let x_hi2 := x_hi + 104 * 128
  -- exp_hi = EXP_M1[x_hi >> 7]; exp_mid = EXP_M2[x_hi & 0x7f]
  match EXP_M1q (Int.fdiv x_hi2 128), EXP_M2q (Int.emod x_hi2 128) with
  | some exp_hi, some exp_mid =>
      let exp_lo := polyeval64 m xd [(1 : ℚ), (9007199254738807 : ℚ) / 2 ^ 53, (1125899906843079 : ℚ) / 2 ^ 51, (6004804084622823 : ℚ) / 2 ^ 55, (6004799503790659 : ℚ) / 2 ^ 57]
      some ⟨valToBits32 (round32v m (round64v m (round64v m (exp_hi * exp_mid) * exp_lo))),
        none⟩
  | _, _ => none

/-- Embedding of `expf` (src/math/generic/expf.cpp).  The bit pattern `b` is
`xbits.uintval()`; `b % 2^31` is `x_abs`; the rounding mode is the
`fputil::get_round()` result; `.err` records the `errno` write. -/
def expf (b : ℕ) (m : RMode) : Option ExpRes :=
  -- if (unlikely(x_u == 0xc236bd8c)) return 0x1.108a58p-66f - x * 0x1.0p-95f;
  if b = 0xc236bd8c then
    some ⟨valToBits32 (round32v m (((2232651 : ℚ) / 2 ^ 87) - round32v m (toVal b * ((1 : ℚ) / 2 ^ 95)))), none⟩
  -- if (unlikely(x_abs >= 0x42b20000 || x_abs <= 0x32800000))
  else if 0x42b20000 ≤ b % 2 ^ 31 ∨ b % 2 ^ 31 ≤ 0x32800000 then
    -- if (xbits.get_unbiased_exponent() <= 101) return 1.0f + x;
    if b / 2 ^ 23 % 256 ≤ 101 then some ⟨fadd32 m 0x3f800000 b, none⟩
    -- if (xbits.uintval() >= 0xc2cff1b5)  -- x < log(2^-150) or nan
    else if 0xc2cff1b5 ≤ b then
      if b % 2 ^ 31 = 0x7f800000 then some ⟨0, none⟩       -- exp(-inf) = 0
      else if 0x7f800000 < b % 2 ^ 31 then some ⟨b, none⟩   -- exp(nan) = nan
      else if m = RMode.upward then some ⟨0x00000001, none⟩ -- MIN_SUBNORMAL
      else some ⟨0, some Errno.ERANGE⟩
    -- if (!xbits.get_sign() && (xbits.uintval() >= 0x42b20000))  -- x >= 89 or nan
    else if b < 2 ^ 31 ∧ 0x42b20000 ≤ b then
      if b < 0x7f800000 then
        if m = RMode.downward ∨ m = RMode.towardzero then
          some ⟨0x7f7fffff, none⟩                           -- MAX_NORMAL
        else some ⟨addWithInf b, some Errno.ERANGE⟩
      else some ⟨addWithInf b, none⟩                        -- x is +inf or nan
    else expf_general b m
  else expf_general b m

/-! ### The `exp2f` entry point (src/math/generic/exp2f.cpp) -/

/-- The 64-entry table `2^(m/64)`, `m = 0..63`, of binary64 constants, from
lines 25-48 of the source. -/
def EXP_M : List ℚ :=
  [(4503599627370496 : ℚ) / 2 ^ 52,
   (4552640611975265 : ℚ) / 2 ^ 52,
   (4602215617889652 : ℚ) / 2 ^ 52,
   (4652330460224456 : ℚ) / 2 ^ 52,
   (4702991017412879 : ℚ) / 2 ^ 52,
   (4754203231900066 : ℚ) / 2 ^ 52,
   (4805973110840145 : ℚ) / 2 ^ 52,
   (4858306726800864 : ℚ) / 2 ^ 52,
   (4911210218475899 : ℚ) / 2 ^ 52,
   (4964689791404917 : ℚ) / 2 ^ 52,
   (5018751718701482 : ℚ) / 2 ^ 52,
   (5073402341788886 : ℚ) / 2 ^ 52,
   (5128648071143992 : ℚ) / 2 ^ 52,
   (5184495387049181 : ℚ) / 2 ^ 52,
   (5240950840352481 : ℚ) / 2 ^ 52,
   (5298021053235979 : ℚ) / 2 ^ 52,
   (5355712719992597 : ℚ) / 2 ^ 52,
   (5414032607811327 : ℚ) / 2 ^ 52,
   (5472987557571019 : ℚ) / 2 ^ 52,
   (5532584484642807 : ℚ) / 2 ^ 52,
   (5592830379701282 : ℚ) / 2 ^ 52,
   (5653732309544490 : ℚ) / 2 ^ 52,
   (5715297417922861 : ℚ) / 2 ^ 52,
   (5777532926377168 : ℚ) / 2 ^ 52,
   (5840446135085607 : ℚ) / 2 ^ 52,
   (5904044423720103 : ℚ) / 2 ^ 52,
   (5968335252311938 : ℚ) / 2 ^ 52,
   (6033326162126810 : ℚ) / 2 ^ 52,
   (6099024776549417 : ℚ) / 2 ^ 52,
   (6165438801977672 : ℚ) / 2 ^ 52,
   (6232576028726661 : ℚ) / 2 ^ 52,
   (6300444331942437 : ℚ) / 2 ^ 52,
   (6369051672525773 : ℚ) / 2 ^ 52,
   (6438406098065967 : ℚ) / 2 ^ 52,
   (6508515743784820 : ℚ) / 2 ^ 52,
   (6579388833490889 : ℚ) / 2 ^ 52,
   (6651033680544135 : ℚ) / 2 ^ 52,
   (6723458688831074 : ℚ) / 2 ^ 52,
   (6796672353750547 : ℚ) / 2 ^ 52,
   (6870683263210221 : ℚ) / 2 ^ 52,
   (6945500098633947 : ℚ) / 2 ^ 52,
   (7021131635980086 : ℚ) / 2 ^ 52,
   (7097586746770917 : ℚ) / 2 ^ 52,
   (7174874399133264 : ℚ) / 2 ^ 52,
   (7253003658850448 : ℚ) / 2 ^ 52,
   (7331983690425701 : ℚ) / 2 ^ 52,
   (7411823758157149 : ℚ) / 2 ^ 52,
   (7492533227224511 : ℚ) / 2 ^ 52,
   (7574121564787629 : ℚ) / 2 ^ 52,
   (7656598341096955 : ℚ) / 2 ^ 52,
   (7739973230616135 : ℚ) / 2 ^ 52,
   (7824256013156818 : ℚ) / 2 ^ 52,
   (7909456575025820 : ℚ) / 2 ^ 52,
   (7995584910184779 : ℚ) / 2 ^ 52,
   (8082651121422441 : ℚ) / 2 ^ 52,
   (8170665421539708 : ℚ) / 2 ^ 52,
   (8259638134547591 : ℚ) / 2 ^ 52,
   (8349579696878213 : ℚ) / 2 ^ 52,
   (8440500658608991 : ℚ) / 2 ^ 52,
   (8532411684700150 : ℚ) / 2 ^ 52,
   (8625323556245722 : ℚ) / 2 ^ 52,
   (8719247171738151 : ℚ) / 2 ^ 52,
   (8814193548346688 : ℚ) / 2 ^ 52,
   (8910173823209688 : ℚ) / 2 ^ 52]

/-- General path of `exp2f` (lines 121-162 of the source): reduction
`x = hi + mid + lo` at 2^6 granularity; `2^hi` is built by placing
`(x_hi >> 6) + 1023` in the binary64 exponent field (exact, value
`2^(x_hi >> 6)` for the in-range exponents of this path), `2^mid` comes from
`EXP_M`, and `2^lo` from a degree-4 minimax polynomial. -/
def exp2f_general (b : ℕ) (m : RMode) : Option ExpRes :=
  let x := toVal b
  -- int x_hi = static_cast<int>(x * 0x1.0p+6f + (xbits.get_sign() ? -0.5f : 0.5f));
  let x_hi : ℤ := truncZ (round32v m (round32v m (x * 64) +
    (if 2 ^ 31 ≤ b then -(1/2 : ℚ) else 1/2)))
  let exp_hi : ℚ := (2 : ℚ) ^ (Int.fdiv x_hi 64)
  let exp_hi_mid := round64v m (exp_hi * EXP_M.getD (Int.emod x_hi 64).toNat 0)
  -- x -= static_cast<float>(x_hi) * 0x1.0p-6f;
  let xd := round32v m (x - round32v m (round32v m (x_hi : ℚ) * (1/64)))
  let exp_lo := polyeval64 m xd [(1 : ℚ), (6243314768159767 : ℚ) / 2 ^ 53, (8655072057817097 : ℚ) / 2 ^ 55, (7998996787436615 : ℚ) / 2 ^ 57, (5544473940813987 : ℚ) / 2 ^ 59]
  some ⟨valToBits32 (round32v m (round64v m (exp_hi_mid * exp_lo))), none⟩

/-- Embedding of `exp2f` (src/math/generic/exp2f.cpp), starting with the
six-case `switch` on exceptional bit patterns (a case without a matching
rounding mode falls through to the main body). -/
def exp2f (b : ℕ) (m : RMode) : Option ExpRes :=
  if b = 0x3b429d37 ∧ m = RMode.nearest then some ⟨0x3f804385, none⟩
  else if b = 0x3c02a9ad ∧ m = RMode.nearest then some ⟨0x3f80b5a3, none⟩
  else if b = 0x3ca66e26 then
    if m = RMode.nearest ∨ m = RMode.upward then some ⟨0x3f81d0b5, none⟩
    else some ⟨0x3f81d0b4, none⟩
  else if b = 0x3d92a282 then
    if m = RMode.upward then some ⟨0x3f868344, none⟩ else some ⟨0x3f868343, none⟩
  else if b = 0xbcf3a937 ∧ m = RMode.nearest then some ⟨0x3f7ac6b1, none⟩
  else if b = 0xb8d3d026 ∧ m = RMode.nearest then some ⟨0x3f7ffb69, none⟩
  -- if (unlikely(x_abs >= 0x43000000 || x_abs <= 0x32800000))
  else if 0x43000000 ≤ b % 2 ^ 31 ∨ b % 2 ^ 31 ≤ 0x32800000 then
    -- |x| < 2^-25: return 1.0f + x;
    if b % 2 ^ 31 ≤ 0x32800000 then some ⟨fadd32 m 0x3f800000 b, none⟩
    -- x >= 128 (sign clear)
    else if b < 2 ^ 31 then
      if b < 0x7f800000 then
        if m = RMode.downward ∨ m = RMode.towardzero then
          some ⟨0x7f7fffff, none⟩                           -- MAX_NORMAL
        else some ⟨addWithInf b, some Errno.ERANGE⟩
      else some ⟨addWithInf b, none⟩
    -- x < -150
    else if 0xc3160000 ≤ b then
      if b % 2 ^ 31 = 0x7f800000 then some ⟨0, none⟩        -- exp(-inf) = 0
      else if 0x7f800000 < b % 2 ^ 31 then some ⟨b, none⟩    -- exp(nan) = nan
      else if m = RMode.upward then some ⟨0x00000001, none⟩  -- MIN_SUBNORMAL
      else if toVal b = 0 then some ⟨0, none⟩
      else some ⟨0, some Errno.ERANGE⟩                      -- if (x != 0.0f) errno
    else exp2f_general b m
  else exp2f_general b m

/-! ### The `expm1f` entry point (src/math/generic/expm1f.cpp) -/

/-- Range reduction of the general path of `expm1f` (lines 106-120 of the
source): `x_hi = static_cast<int>(x * 0x1.0p7f)` (truncation toward zero),
`x -= static_cast<float>(x_hi) * 0x1.0p-7f`, then the explicit boundary
renormalization `if (x >= 0x1.0p-8f) { ++x_hi; xd -= 0x1.0p-7; }` and
`if (x < -0x1.0p-8f) { --x_hi; xd += 0x1.0p-7; }`, and finally
`x_hi += 104 << 7`.  Returns the table index `x_hi` and the residual `lo`. -/
def expm1f_reduce (m : RMode) (x : ℚ) : ℤ × ℚ :=
  let x_hi : ℤ := truncZ (round32v m (x * 128))
  let xr := round32v m (x - round32v m (round32v m (x_hi : ℚ) * (1/128)))
  let p1 : ℤ × ℚ :=
    if (1 : ℚ)/256 ≤ xr then (x_hi + 1, round64v m (xr - 1/128)) else (x_hi, xr)
  let p2 : ℤ × ℚ :=
    if xr < -((1 : ℚ)/256) then (p1.1 - 1, round64v m (p1.2 + 1/128)) else p1
  (p2.1 + 104 * 128, p2.2)

/-- General path of `expm1f` (lines 106-134): the reduction above, the
`EXP_M1`/`EXP_M2` lookups, a degree-7 minimax polynomial for `exp(lo)` and
the final fused `fma(exp_hi_mid, exp_lo, -1.0)`. -/
def expm1f_general (b : ℕ) (m : RMode) : Option ExpRes :=
  let rp := expm1f_reduce m (toVal b)
  match EXP_M1q (Int.fdiv rp.1 128), EXP_M2q (Int.emod rp.1 128) with
  | some exp_hi, some exp_mid =>
      let exp_hi_mid := round64v m (exp_hi * exp_mid)
      let exp_lo := polyeval64 m rp.2 [(1 : ℚ), (1 : ℚ), (1 : ℚ) / 2 ^ 1, (6004799503160661 : ℚ) / 2 ^ 55, (187649984473757 : ℚ) / 2 ^ 52, (1200959900881791 : ℚ) / 2 ^ 57, (3202561044458653 : ℚ) / 2 ^ 61, (3658672795072151 : ℚ) / 2 ^ 64]
      some ⟨valToBits32 (round32v m (round64v m (exp_hi_mid * exp_lo - 1))), none⟩
  | _, _ => none

/-- Embedding of `expm1f` (src/math/generic/expm1f.cpp). -/
def expm1f (b : ℕ) (m : RMode) : Option ExpRes :=
  -- if (unlikely(xbits.uintval() >= 0xc18aa123))  -- x < log(2^-25) or nan
  if 0xc18aa123 ≤ b then
    if b % 2 ^ 31 = 0x7f800000 then some ⟨0xbf800000, none⟩  -- expm1(-inf) = -1
    else if 0x7f800000 < b % 2 ^ 31 then some ⟨b, none⟩       -- expm1(nan) = nan
    else if m = RMode.upward ∨ m = RMode.towardzero then
      some ⟨0xbf7fffff, none⟩                                 -- -1.0f + 0x1.0p-24f
    else some ⟨0xbf800000, none⟩
  -- if (unlikely(!xbits.get_sign() && (xbits.uintval() >= 0x42b20000)))
  else if b < 2 ^ 31 ∧ 0x42b20000 ≤ b then
    if b < 0x7f800000 then
      if m = RMode.downward ∨ m = RMode.towardzero then
        some ⟨0x7f7fffff, none⟩                               -- MAX_NORMAL
      else some ⟨addWithInf b, some Errno.ERANGE⟩
    else some ⟨addWithInf b, none⟩
  -- if (unbiased_exponent < 123)  -- |x| < 2^-4
  else if b / 2 ^ 23 % 256 < 123 then
    -- if (unbiased_exponent < 102)  -- |x| < 2^-25
    if b / 2 ^ 23 % 256 < 102 then
      if b = 0x80000000 then some ⟨b, none⟩                   -- x = -0.0f
      else some ⟨fma32 m b b b, none⟩                         -- fma(x, x, x)
    else
      -- 2^-25 <= |x| < 2^-4: degree-8 minimax polynomial, fma(r, xsq, xd)
      let xd := toVal b
      let xsq := round64v m (xd * xd)
      let r := polyeval64 m xd [(1 : ℚ) / 2 ^ 1, (6004799503161771 : ℚ) / 2 ^ 55, (6004799503159719 : ℚ) / 2 ^ 57, (1200959893814441 : ℚ) / 2 ^ 57, (3202559740333889 : ℚ) / 2 ^ 61, (3660451241385811 : ℚ) / 2 ^ 64, (7320394881601485 : ℚ) / 2 ^ 68]
      some ⟨valToBits32 (round32v m (round64v m (r * xsq + xd))), none⟩
  -- if (xbits.uintval() == 0xbdc1c6cb)  -- x = -0x1.838d96p-4f
  else if b = 0xbdc1c6cb then
    if m = RMode.nearest ∨ m = RMode.downward then some ⟨0xbdb8e442, none⟩
    else some ⟨0xbdb8e441, none⟩
  else expm1f_general b m

/-! ### The second `expm1f` implementation (src/unnamed/part_005) -/

/-- Shared tail of the second `expm1f`: the `|x| < 2^-4` branches (lines
67-100 of part_005) and its general path (lines 102-136, reduction with a
sign-dependent `0.5` bias and no renormalization, degree-4 polynomial,
`multiply_add(exp_hi_mid, exp_lo, -1.0)`). -/
def expm1f_alt_tail (b : ℕ) (m : RMode) : Option ExpRes :=
  -- if (x_abs < 0x3d800000)  -- |x| < 2^-4
  if b % 2 ^ 31 < 0x3d800000 then
    -- if (x_abs < 0x33000000)  -- |x| < 2^-25
    if b % 2 ^ 31 < 0x33000000 then
      if b = 0x80000000 then some ⟨b, none⟩                   -- x = -0.0f
      else some ⟨fma32 m b b b, none⟩                         -- multiply_add(x, x, x)
    else
      let xd := toVal b
      let xsq := round64v m (xd * xd)
      let r := polyeval64 m xd [(1 : ℚ) / 2 ^ 1, (6004799503161309 : ℚ) / 2 ^ 55, (3002399751580029 : ℚ) / 2 ^ 56, (4803839581313207 : ℚ) / 2 ^ 59, (6405119475672587 : ℚ) / 2 ^ 62, (3660415808583345 : ℚ) / 2 ^ 64, (228763376197123 : ℚ) / 2 ^ 63]
      some ⟨valToBits32 (round32v m (round64v m (r * xsq + xd))), none⟩
  else
    let x := toVal b
    -- int x_hi = static_cast<int>(x * 0x1.0p7f + (xbits.get_sign() ? -0.5f : 0.5f));
    let x_hi : ℤ := truncZ (round32v m (round32v m (x * 128) +
      (if 2 ^ 31 ≤ b then -(1/2 : ℚ) else 1/2)))
    let xd := round32v m (x - round32v m (round32v m (x_hi : ℤ) * (1/128)))
    let x_hi2 := x_hi + 104 * 128
    match EXP_M1q (Int.fdiv x_hi2 128), EXP_M2q (Int.emod x_hi2 128) with
    | some exp_hi, some exp_mid =>
        let exp_hi_mid := round64v m (exp_hi * exp_mid)
        let exp_lo := polyeval64 m xd [(1 : ℚ), (9007199254738807 : ℚ) / 2 ^ 53, (1125899906843079 : ℚ) / 2 ^ 51, (6004804084622823 : ℚ) / 2 ^ 55, (6004799503790659 : ℚ) / 2 ^ 57]
        some ⟨valToBits32 (round32v m (round64v m (exp_hi_mid * exp_lo - 1))), none⟩
    | _, _ => none

/-- Embedding of the second `expm1f` implementation (src/unnamed/part_005). -/
def expm1f_alt (b : ℕ) (m : RMode) : Option ExpRes :=
  -- if (unlikely(x_u == 0x3e35bec5))  -- x = 0x1.6b7d8ap-3f
  if b = 0x3e35bec5 then
    if m = RMode.nearest ∨ m = RMode.upward then some ⟨0x3e46df32, none⟩
    else some ⟨0x3e46df31, none⟩
  -- if (unlikely(x_abs >= 0x418aa123))  -- |x| > 25 log 2, or nan
  else if 0x418aa123 ≤ b % 2 ^ 31 then
    if 2 ^ 31 ≤ b then
      -- x < log(2^-25)
      if b % 2 ^ 31 = 0x7f800000 then some ⟨0xbf800000, none⟩
      else if 0x7f800000 < b % 2 ^ 31 then some ⟨b, none⟩
      else if m = RMode.upward ∨ m = RMode.towardzero then some ⟨0xbf7fffff, none⟩
      else some ⟨0xbf800000, none⟩
    else if 0x42b20000 ≤ b then
      -- x >= 89 or nan
      if b < 0x7f800000 then
        if m = RMode.downward ∨ m = RMode.towardzero then some ⟨0x7f7fffff, none⟩
        else some ⟨addWithInf b, some Errno.ERANGE⟩
      else some ⟨addWithInf b, none⟩
    else expm1f_alt_tail b m
  else expm1f_alt_tail b m

/-! ### The `sincosf` entry point (src/unnamed/part_004) -/

/-- The ten exceptional input patterns (`EXCEPT_INPUTS`, matched against
`x_abs` by exact equality). -/
def EXCEPT_INPUTS : List ℕ :=
  [0x3b5637f5, 0x3fa7832a, 0x46199998, 0x55325019, 0x55cafb2a,
   0x5922aa80, 0x5aa4542c, 0x5f18b878, 0x6115cb11, 0x7beef5ef]

/-- `EXCEPT_OUTPUTS_SIN`: per input, the round-toward-zero result and the
increments to add for (positive-up / negative-down), (positive-down /
negative-up) and to-nearest. -/
def EXCEPT_OUTPUTS_SIN : List (ℕ × ℕ × ℕ × ℕ) :=
  [(0x3b5637dc, 1, 0, 0), (0x3f7741b5, 1, 0, 1), (0xbeb1fa5d, 0, 1, 0),
   (0xbf171adf, 0, 1, 1), (0xbf7e7a16, 0, 1, 1), (0xbf587521, 0, 1, 1),
   (0x3f5f5646, 1, 0, 0), (0x3dad60f6, 1, 0, 1), (0xbe7cc1e0, 0, 1, 1),
   (0xbf587d1b, 0, 1, 1)]

/-- `EXCEPT_OUTPUTS_COS`: per input, the round-toward-zero result and the
increments for up, down and to-nearest. -/
def EXCEPT_OUTPUTS_COS : List (ℕ × ℕ × ℕ × ℕ) :=
  [(0x3f7fffa6, 1, 0, 0), (0x3e84aabf, 1, 0, 1), (0xbf70090b, 0, 1, 0),
   (0x3f4ea5d2, 1, 0, 0), (0x3ddf11f3, 1, 0, 1), (0x3f08aebe, 1, 0, 1),
   (0x3efa40a4, 1, 0, 0), (0x3f7f14bb, 1, 0, 0), (0x3f78142e, 1, 0, 1),
   (0x3f08a21c, 1, 0, 0)]

/-- The linear scan `for (i = 0; i < N_EXCEPTS; ++i) if (x_abs ==
EXCEPT_INPUTS[i])` of the source: index of the matching entry, if any. -/
def exceptIdx (xa : ℕ) : Option ℕ :=
  List.findIdx? (fun v => xa = v) EXCEPT_INPUTS

/-- The exceptional-value result of `sincosf` (lines 170-195 of the source):
start from the round-toward-zero entries, add the sign- and mode-selected
increments (`FE_TOWARDZERO` adds nothing), and negate the sine output for
negative inputs. -/
def exceptResult (b : ℕ) (m : RMode) (i : ℕ) : SincosRes :=
  let rs := EXCEPT_OUTPUTS_SIN.getD i (0, 0, 0, 0)
  let rc := EXCEPT_OUTPUTS_COS.getD i (0, 0, 0, 0)
  let s :=
    match m with
    | RMode.upward => rs.1 + (if 2 ^ 31 ≤ b then rs.2.2.1 else rs.2.1)
    | RMode.downward => rs.1 + (if 2 ^ 31 ≤ b then rs.2.1 else rs.2.2.1)
    | RMode.nearest => rs.1 + rs.2.2.2
    | RMode.towardzero => rs.1
  let c :=
    match m with
    | RMode.upward => rc.1 + rc.2.1
    | RMode.downward => rc.1 + rc.2.2.1
    | RMode.nearest => rc.1 + rc.2.2.2
    | RMode.towardzero => rc.1
  ⟨if 2 ^ 31 ≤ b then fnegBits s else s, c, none, false⟩

/-- Embedding of `sincosf` (src/unnamed/part_004).  The general path returns
`none`: it calls `sincosf_eval` of `sincosf_utils.h`, which is absent from
the tree, so only the special, invalid and exceptional-table paths are
embedded.  The tiny path follows the `LIBC_TARGET_HAS_FMA` build (single
fused rounding per output). -/
def sincosf (b : ℕ) (m : RMode) : Option SincosRes :=
  -- if (unlikely(x_abs < 0x39800000))  -- |x| < 0x1.0p-12f
  if b % 2 ^ 31 < 0x39800000 then
    if b % 2 ^ 31 = 0 then some ⟨b, 0x3f800000, none, false⟩  -- signed zeros
    else
      -- *sinp = fma(x, -0x1.0p-25f, x); *cosp = fma(|x|, -0x1.0p-25f, 1.0f);
      some ⟨valToBits32 (round32v m (toVal b * (-(1 : ℚ)/2 ^ 25) + toVal b)),
            valToBits32 (round32v m (toVal (b % 2 ^ 31) * (-(1 : ℚ)/2 ^ 25) + 1)),
            none, false⟩
  -- if (unlikely(x_abs >= 0x7f800000))  -- x is inf or nan
  else if 0x7f800000 ≤ b % 2 ^ 31 then
    if b % 2 ^ 31 = 0x7f800000 then
      some ⟨addNanConst b, addNanConst b, some Errno.EDOM, true⟩
    else some ⟨addNanConst b, addNanConst b, none, false⟩
  else
    match exceptIdx (b % 2 ^ 31) with
    | some i => some (exceptResult b m i)
    | none => none

/-- The sine bit pattern that the exceptional-input table prescribes for
entry `i` under mode `m` when the input is negative (`neg`): the
round-toward-zero base entry plus the tabulated sign- and mode-selected
increment (`FE_TOWARDZERO` adds nothing; up/down swap their increments for
negative inputs). -/
def sinPattern (i : ℕ) (m : RMode) (neg : Bool) : ℕ :=
  let r := EXCEPT_OUTPUTS_SIN.getD i (0, 0, 0, 0)
  r.1 + (match m with
         | RMode.towardzero => 0
         | RMode.nearest => r.2.2.2
         | RMode.upward => if neg then r.2.2.1 else r.2.1
         | RMode.downward => if neg then r.2.1 else r.2.2.1)

/-- The cosine bit pattern prescribed by the exceptional-input table for
entry `i` under mode `m` (cosine is even, so no sign dependence). -/
def cosPattern (i : ℕ) (m : RMode) : ℕ :=
  let r := EXCEPT_OUTPUTS_COS.getD i (0, 0, 0, 0)
  r.1 + (match m with
         | RMode.towardzero => 0
         | RMode.nearest => r.2.2.2
         | RMode.upward => r.2.1
         | RMode.downward => r.2.2.1)

/-! ### Supporting lemmas -/

theorem ilog2_spec (q : ℚ) (hq : q ≠ 0) :
    (2 : ℚ) ^ ilog2 q ≤ |q| ∧ |q| < (2 : ℚ) ^ (ilog2 q + 1) := by
  have hnum : q.num ≠ 0 := Rat.num_ne_zero.mpr hq
  have hna : q.num.natAbs ≠ 0 := Int.natAbs_ne_zero.mpr hnum
  have hden : (0 : ℚ) < (q.den : ℚ) := by
    exact_mod_cast Nat.pos_of_ne_zero q.den_nz
  set a : ℕ := q.num.natAbs with ha
  set b : ℕ := q.den with hb
  have habs : |q| = (a : ℚ) / (b : ℚ) := by
    conv_lhs => rw [← Rat.num_div_den q]
    rw [abs_div, abs_of_pos hden, ha, hb]
    congr 1
    simp [Int.cast_natAbs]
  set la : ℕ := Nat.log 2 a with hla
  set lb : ℕ := Nat.log 2 b with hlb
  have hb0 : b ≠ 0 := q.den_nz
  have hA1 : (2 : ℚ) ^ (la : ℤ) ≤ (a : ℚ) := by
    rw [zpow_natCast]
    exact_mod_cast Nat.pow_log_le_self 2 hna
  have hA2 : (a : ℚ) < (2 : ℚ) ^ ((la : ℤ) + 1) := by
    have := Nat.lt_pow_succ_log_self (b := 2) (by norm_num) a
    have h2 : ((la : ℤ) + 1) = ((la + 1 : ℕ) : ℤ) := by push_cast; ring
    rw [h2, zpow_natCast]
    exact_mod_cast this
  have hB1 : (2 : ℚ) ^ (lb : ℤ) ≤ (b : ℚ) := by
    rw [zpow_natCast]
    exact_mod_cast Nat.pow_log_le_self 2 hb0
  have hB2 : (b : ℚ) < (2 : ℚ) ^ ((lb : ℤ) + 1) := by
    have := Nat.lt_pow_succ_log_self (b := 2) (by norm_num) b
    have h2 : ((lb : ℤ) + 1) = ((lb + 1 : ℕ) : ℤ) := by push_cast; ring
    rw [h2, zpow_natCast]
    exact_mod_cast this
  have hapos : (0 : ℚ) < (a : ℚ) := by
    exact_mod_cast Nat.pos_of_ne_zero hna
  have hlow : (2 : ℚ) ^ ((la : ℤ) - (lb : ℤ) - 1) < |q| := by
    rw [habs]
    have heq : (2 : ℚ) ^ ((la : ℤ) - (lb : ℤ) - 1)
        = (2 : ℚ) ^ (la : ℤ) / (2 : ℚ) ^ ((lb : ℤ) + 1) := by
      rw [← zpow_sub₀ (by norm_num : (2:ℚ) ≠ 0)]
      congr 1
      ring
    rw [heq, div_lt_div_iff₀ (by positivity) hden]
    calc (2 : ℚ) ^ (la : ℤ) * (b : ℚ)
        < (2 : ℚ) ^ (la : ℤ) * (2 : ℚ) ^ ((lb : ℤ) + 1) := by
          apply mul_lt_mul_of_pos_left hB2 (by positivity)
      _ ≤ (a : ℚ) * (2 : ℚ) ^ ((lb : ℤ) + 1) := by
          apply mul_le_mul_of_nonneg_right hA1 (by positivity)
  have hhigh : |q| < (2 : ℚ) ^ ((la : ℤ) - (lb : ℤ) + 1) := by
    rw [habs]
    have heq : (2 : ℚ) ^ ((la : ℤ) - (lb : ℤ) + 1)
        = (2 : ℚ) ^ ((la : ℤ) + 1) / (2 : ℚ) ^ (lb : ℤ) := by
      rw [← zpow_sub₀ (by norm_num : (2:ℚ) ≠ 0)]
      congr 1
      ring
    rw [heq, div_lt_div_iff₀ hden (by positivity)]
    calc (a : ℚ) * (2 : ℚ) ^ (lb : ℤ)
        < (2 : ℚ) ^ ((la : ℤ) + 1) * (2 : ℚ) ^ (lb : ℤ) := by
          apply mul_lt_mul_of_pos_right hA2 (by positivity)
      _ ≤ (2 : ℚ) ^ ((la : ℤ) + 1) * (b : ℚ) := by
          apply mul_le_mul_of_nonneg_left hB1 (by positivity)
  rw [ilog2]
  simp only [← ha, ← hb, ← hla, ← hlb]
  by_cases hc : (2 : ℚ) ^ ((la : ℤ) - (lb : ℤ)) ≤ |q|
  · rw [if_pos hc]
    exact ⟨hc, hhigh⟩
  · rw [if_neg hc]
    constructor
    · have : ((la : ℤ) - (lb : ℤ) - 1) = (la : ℤ) - (lb : ℤ) - 1 := rfl
      exact le_of_lt hlow
    · have : (la : ℤ) - (lb : ℤ) - 1 + 1 = (la : ℤ) - (lb : ℤ) := by ring
      rw [this]
      exact not_le.mp hc

theorem ilog2_unique (q : ℚ) (k : ℤ) (h1 : (2 : ℚ) ^ k ≤ |q|)
    (h2 : |q| < (2 : ℚ) ^ (k + 1)) : ilog2 q = k := by
  have hq : q ≠ 0 := by
    intro h
    rw [h, abs_zero] at h1
    exact absurd h1 (not_le.mpr (by positivity))
  obtain ⟨hl, hr⟩ := ilog2_spec q hq
  by_contra hne
  rcases lt_or_gt_of_ne hne with h | h
  · have hle : (2 : ℚ) ^ (ilog2 q + 1) ≤ (2 : ℚ) ^ k := by
      apply zpow_le_zpow_right₀ (by norm_num)
      omega
    linarith
  · have hle : (2 : ℚ) ^ (k + 1) ≤ (2 : ℚ) ^ ilog2 q := by
      apply zpow_le_zpow_right₀ (by norm_num)
      omega
    linarith

/-- If `|q| ≤ 2^k` (and `q ≠ 0`) then `ilog2 q ≤ k`. -/
theorem ilog2_le (q : ℚ) (k : ℤ) (hq : q ≠ 0) (h : |q| ≤ (2 : ℚ) ^ k) :
    ilog2 q ≤ k := by
  obtain ⟨hl, _⟩ := ilog2_spec q hq
  by_contra hlt
  have : (2 : ℚ) ^ (k + 1) ≤ (2 : ℚ) ^ ilog2 q := by
    apply zpow_le_zpow_right₀ (by norm_num)
    omega
  have h2 : (2 : ℚ) ^ k < (2 : ℚ) ^ (k + 1) := by
    apply zpow_lt_zpow_right₀ (by norm_num)
    omega
  linarith

theorem floor_lt_ceil_of_half (q : ℚ) (h : 1/2 ≤ q - ⌊q⌋) : ⌊q⌋ + 1 ≤ ⌈q⌉ := by
  have h1 : (⌊q⌋ : ℚ) < (⌈q⌉ : ℚ) := by
    have := Int.le_ceil q
    linarith
  have h2 : ⌊q⌋ < ⌈q⌉ := by exact_mod_cast h1
  omega

theorem roundInt_le_ceil (m : RMode) (q : ℚ) : roundInt m q ≤ ⌈q⌉ := by
  cases m with
  | nearest =>
      simp only [roundInt]
      split_ifs with h1 h2 h3
      · exact Int.floor_le_ceil q
      · exact floor_lt_ceil_of_half q (le_of_lt h2)
      · exact Int.floor_le_ceil q
      · exact floor_lt_ceil_of_half q (not_lt.mp h1)
  | upward => exact le_refl _
  | downward => exact Int.floor_le_ceil q
  | towardzero =>
      simp only [roundInt]
      split_ifs
      · exact Int.floor_le_ceil q
      · exact le_refl _

theorem floor_le_roundInt (m : RMode) (q : ℚ) : ⌊q⌋ ≤ roundInt m q := by
  cases m with
  | nearest =>
      simp only [roundInt]
      split_ifs <;> omega
  | upward => exact Int.floor_le_ceil q
  | downward => exact le_refl _
  | towardzero =>
      simp only [roundInt]
      split_ifs
      · exact le_refl _
      · exact Int.floor_le_ceil q

theorem roundInt_intCast (m : RMode) (n : ℤ) : roundInt m (n : ℚ) = n := by
  have h1 : ⌊(n : ℚ)⌋ = n := Int.floor_intCast n
  have h2 : ⌈(n : ℚ)⌉ = n := Int.ceil_intCast n
  cases m with
  | nearest =>
      simp only [roundInt, h1]
      rw [if_pos]
      rw [sub_self]
      norm_num
  | upward => exact h2
  | downward => exact h1
  | towardzero =>
      simp only [roundInt, h1, h2]
      split <;> rfl

/-- The rounded integer stays strictly within one of the original value. -/
theorem roundInt_dist_lt (m : RMode) (q : ℚ) : |(roundInt m q : ℚ) - q| < 1 := by
  have h1 : ⌊q⌋ ≤ roundInt m q := floor_le_roundInt m q
  have h2 : roundInt m q ≤ ⌈q⌉ := roundInt_le_ceil m q
  have h3 : (⌊q⌋ : ℚ) ≤ (roundInt m q : ℚ) := by exact_mod_cast h1
  have h4 : ((roundInt m q : ℤ) : ℚ) ≤ (⌈q⌉ : ℚ) := by exact_mod_cast h2
  have h5 : q - 1 < (⌊q⌋ : ℚ) := Int.sub_one_lt_floor q
  have h6 : (⌈q⌉ : ℚ) < q + 1 := Int.ceil_lt_add_one q
  rw [abs_sub_lt_iff]
  constructor <;> linarith

theorem fround_zero (p : ℕ) (emin : ℤ) (m : RMode) : fround p emin m 0 = 0 := by
  simp [fround]

theorem isRep_norm_aux (p : ℕ) (emin : ℤ) (hp : 1 ≤ p) :
    ∀ (k : ℕ) (n g : ℤ), n ≠ 0 → n.natAbs < 2 ^ p → emin ≤ g →
      (g - emin).toNat ≤ k →
      ∃ n' : ℤ, ∃ g' : ℤ, (n' : ℚ) * (2 : ℚ) ^ g' = (n : ℚ) * (2 : ℚ) ^ g ∧
        n'.natAbs < 2 ^ p ∧ emin ≤ g' ∧ (2 ^ (p - 1) ≤ n'.natAbs ∨ g' = emin) := by
  intro k
  induction k with
  | zero =>
      intro n g hn hna hg hk
      have : g = emin := by omega
      exact ⟨n, g, rfl, hna, hg, Or.inr this⟩
  | succ k ih =>
      intro n g hn hna hg hk
      by_cases hbig : 2 ^ (p - 1) ≤ n.natAbs
      · exact ⟨n, g, rfl, hna, hg, Or.inl hbig⟩
      · by_cases hge : g = emin
        · exact ⟨n, g, rfl, hna, hg, Or.inr hge⟩
        · have hglt : emin < g := lt_of_le_of_ne hg (Ne.symm hge)
          have hna2 : (2 * n).natAbs < 2 ^ p := by
            rw [Int.natAbs_mul]
            have h2p : (2 : ℕ) ^ p = 2 * 2 ^ (p - 1) := by
              conv_lhs => rw [show p = p - 1 + 1 by omega]
              rw [pow_succ]
              ring
            have h2a : (2 : ℤ).natAbs = 2 := rfl
            rw [h2a]
            omega
          have hval : ((2 * n : ℤ) : ℚ) * (2 : ℚ) ^ (g - 1)
              = (n : ℚ) * (2 : ℚ) ^ g := by
            push_cast
            have heq : (2 : ℚ) ^ g = (2 : ℚ) ^ (g - 1) * 2 := by
              rw [← zpow_add_one₀ (by norm_num : (2:ℚ) ≠ 0)]
              congr 1
              ring
            rw [heq]
            ring
          obtain ⟨n', g', hv, hna', hg', hcase⟩ :=
            ih (2 * n) (g - 1) (mul_ne_zero (by norm_num) hn) hna2 (by omega) (by omega)
          exact ⟨n', g', by rw [hv, hval], hna', hg', hcase⟩

/-- A value exactly representable in the format is a fixed point of rounding,
whatever the mode. -/
theorem fround_eq_self (p : ℕ) (emin : ℤ) (hp : 1 ≤ p) (m : RMode) (q : ℚ)
    (h : IsRep p emin q) : fround p emin m q = q := by
  rcases eq_or_ne q 0 with h0 | h0
  · rw [h0, fround_zero]
  · obtain ⟨n0, g0, hq0, hna0, hg0⟩ := h
    have hn0 : n0 ≠ 0 := by
      intro hc
      apply h0
      rw [hq0, hc]
      norm_num
    obtain ⟨n, g, hv, hna, hg, hcase⟩ :=
      isRep_norm_aux p emin hp (g0 - emin).toNat n0 g0 hn0 hna0 hg0 (le_refl _)
    have hq : q = (n : ℚ) * (2 : ℚ) ^ g := by rw [hv, ← hq0]
    have hn : n ≠ 0 := by
      intro hc
      apply h0
      rw [hq, hc]
      norm_num
    -- the grid exponent is at most g
    have hqabs : |q| = (n.natAbs : ℚ) * (2 : ℚ) ^ g := by
      rw [hq, abs_mul, abs_of_pos (show (0:ℚ) < (2:ℚ) ^ g by positivity)]
      congr 1
      simp [Int.cast_natAbs]
    have hub : |q| < (2 : ℚ) ^ ((p : ℤ) + g) := by
      rw [hqabs]
      have h1 : (n.natAbs : ℚ) < (2 : ℚ) ^ (p : ℤ) := by
        rw [zpow_natCast]
        exact_mod_cast hna
      have h2 : (0 : ℚ) < (2 : ℚ) ^ g := by positivity
      calc (n.natAbs : ℚ) * (2 : ℚ) ^ g
          < (2 : ℚ) ^ (p : ℤ) * (2 : ℚ) ^ g := by
            exact mul_lt_mul_of_pos_right h1 h2
        _ = (2 : ℚ) ^ ((p : ℤ) + g) := by
            rw [← zpow_add₀ (by norm_num : (2:ℚ) ≠ 0)]
    have hilog : ilog2 q < (p : ℤ) + g := by
      obtain ⟨hl, _⟩ := ilog2_spec q h0
      by_contra hc
      have : (2 : ℚ) ^ ((p : ℤ) + g) ≤ (2 : ℚ) ^ ilog2 q := by
        apply zpow_le_zpow_right₀ (by norm_num)
        omega
      linarith
    have hE : max emin (ilog2 q - ((p : ℤ) - 1)) ≤ g := by
      apply max_le hg
      omega
    set E : ℤ := max emin (ilog2 q - ((p : ℤ) - 1)) with hEdef
    have hscale : q * (2 : ℚ) ^ (-E) = ((n * 2 ^ (g - E).toNat : ℤ) : ℚ) := by
      rw [hq]
      push_cast
      rw [mul_assoc, ← zpow_natCast (2:ℚ) (g - E).toNat,
        Int.toNat_of_nonneg (by omega : (0:ℤ) ≤ g - E),
        ← zpow_add₀ (by norm_num : (2:ℚ) ≠ 0), show g + -E = g - E by ring]
    rw [fround, if_neg h0, ← hEdef, hscale, roundInt_intCast]
    have ht : (((g - E).toNat : ℕ) : ℤ) = g - E := Int.toNat_of_nonneg (by omega)
    rw [hq]
    push_cast
    rw [mul_assoc, ← zpow_natCast (2:ℚ) (g - E).toNat, ht,
      ← zpow_add₀ (by norm_num : (2:ℚ) ≠ 0)]
    have hgE : g - E + E = g := by ring
    rw [hgE]

/-- Mode-uniform rounding error bound: rounding moves the value by strictly
less than one unit of the grid, and the grid unit is bounded through any bound
`|q| ≤ 2^k` on the magnitude. -/
theorem fround_dist_lt (p : ℕ) (emin : ℤ) (m : RMode) (q : ℚ) (k : ℤ)
    (hq : q ≠ 0) (hk : |q| ≤ (2 : ℚ) ^ k) :
    |fround p emin m q - q| < (2 : ℚ) ^ (max emin (k - ((p : ℤ) - 1))) := by
  have hEle : max emin (ilog2 q - ((p : ℤ) - 1)) ≤ max emin (k - ((p : ℤ) - 1)) := by
    have := ilog2_le q k hq hk
    omega
  set E : ℤ := max emin (ilog2 q - ((p : ℤ) - 1)) with hEdef
  have hpow : (0 : ℚ) < (2 : ℚ) ^ E := by positivity
  have key : |fround p emin m q - q| < (2 : ℚ) ^ E := by
    rw [fround, if_neg hq, ← hEdef]

    have hd := roundInt_dist_lt m (q * (2 : ℚ) ^ (-E))
    have hrw : (roundInt m (q * (2 : ℚ) ^ (-E)) : ℚ) * (2 : ℚ) ^ E - q
        = ((roundInt m (q * (2 : ℚ) ^ (-E)) : ℚ) - q * (2 : ℚ) ^ (-E)) * (2 : ℚ) ^ E := by
      have : q * (2 : ℚ) ^ (-E) * (2 : ℚ) ^ E = q := by
        rw [mul_assoc, ← zpow_add₀ (by norm_num : (2:ℚ) ≠ 0)]
        simp
      rw [sub_mul, this]
    rw [hrw, abs_mul, abs_of_pos hpow]
    calc |(roundInt m (q * (2 : ℚ) ^ (-E)) : ℚ) - q * (2 : ℚ) ^ (-E)| * (2 : ℚ) ^ E
        < 1 * (2 : ℚ) ^ E := by
          exact mul_lt_mul_of_pos_right hd hpow
      _ = (2 : ℚ) ^ E := one_mul _
  calc |fround p emin m q - q| < (2 : ℚ) ^ E := key
    _ ≤ (2 : ℚ) ^ (max emin (k - ((p : ℤ) - 1))) := by
        apply zpow_le_zpow_right₀ (by norm_num)
        exact hEle

/-! ### Bit-level view of binary32 (FPBits)

`FPBits.h` itself is not under `src/`; the field extractions below are the
standard IEEE-754 binary32 layout that the spec (§4.1 FloatBits view)
describes: bit 31 the sign, bits 30..23 the biased exponent, bits 22..0 the
mantissa.  On a pattern `b < 2^32`, `b % 2^31` is `b & 0x7fffffff` (the
absolute value pattern `x_abs` of the sources), `b / 2^23 % 256` is the
biased exponent field (`get_unbiased_exponent`), and `2^31 ≤ b` is the sign
bit (`get_sign`). -/

/-- If the biased exponent field of `b` is neither 0 nor 255, the denoted
value is a nonzero normal number. -/
theorem toVal_ne_zero_of_normal (b : ℕ) (h1 : 1 ≤ b / 2 ^ 23 % 256) :
    toVal b ≠ 0 := by
  obtain ⟨e', he⟩ : ∃ e', b / 2 ^ 23 % 256 = e' + 1 :=
    ⟨b / 2 ^ 23 % 256 - 1, by omega⟩
  rw [toVal, he]
  simp only [f32_to_rat]
  intro hc
  rcases mul_eq_zero.mp hc with hc1 | hc2
  · rcases mul_eq_zero.mp hc1 with hs | hm
    · split_ifs at hs <;> norm_num at hs
    · have : (0 : ℚ) < ((2 ^ 23 + b % 2 ^ 23 : ℕ) : ℚ) := by positivity
      rw [hm] at this
      exact lt_irrefl 0 this
  · exact (zpow_ne_zero _ (by norm_num : (2:ℚ) ≠ 0)) hc2

/-! ### The claims -/

/-- Claim C1 (corrected), counterexample: the claim states that for finite
`x` at or above the overflow threshold the function returns `MAX_NORMAL`
under the directed rounding modes; but under the directed mode `FE_UPWARD`,
`expf(89.0f)` (bit pattern `0x42b20000`) sets `errno = ERANGE` and returns
`+∞` (`0x7f800000`), not `MAX_NORMAL` (`0x7f7fffff`). -/
theorem claim_C1_counterexample :
    expf 0x42b20000 RMode.upward = some ⟨0x7f800000, some Errno.ERANGE⟩ ∧
    (0x7f800000 : ℕ) ≠ 0x7f7fffff := by decide

/-- Claim C1 (amended): for every finite float at or above the overflow
threshold (`x ≥ 89`, bits in `[0x42b20000, 0x7f800000)`, for `expf` and
`expm1f`; `x ≥ 128`, bits in `[0x43000000, 0x7f800000)`, for `exp2f`), the
function returns the clamped boundary value `MAX_NORMAL` (without touching
`errno`) under `FE_DOWNWARD` and `FE_TOWARDZERO`, and under `FE_TONEAREST`
and `FE_UPWARD` it sets `errno = ERANGE` and returns the IEEE overflow
result `+∞`. -/
theorem claim_C1 :
    (∀ (b : ℕ) (m : RMode), 0x42b20000 ≤ b → b < 0x7f800000 →
      expf b m = (if m = RMode.downward ∨ m = RMode.towardzero
        then some ⟨0x7f7fffff, none⟩ else some ⟨0x7f800000, some Errno.ERANGE⟩) ∧
      expm1f b m = (if m = RMode.downward ∨ m = RMode.towardzero
        then some ⟨0x7f7fffff, none⟩ else some ⟨0x7f800000, some Errno.ERANGE⟩)) ∧
    (∀ (b : ℕ) (m : RMode), 0x43000000 ≤ b → b < 0x7f800000 →
      exp2f b m = (if m = RMode.downward ∨ m = RMode.towardzero
        then some ⟨0x7f7fffff, none⟩ else some ⟨0x7f800000, some Errno.ERANGE⟩)) := by
  have hinf : ∀ b : ℕ, b < 0x7f800000 → addWithInf b = 0x7f800000 := by
    intro b hb
    rw [addWithInf, if_neg (by omega)]
  constructor
  · intro b m h1 h2
    constructor
    · rw [expf, if_neg (by omega),
        if_pos (by left; omega : 0x42b20000 ≤ b % 2 ^ 31 ∨ b % 2 ^ 31 ≤ 0x32800000),
        if_neg (by omega : ¬ b / 2 ^ 23 % 256 ≤ 101),
        if_neg (by omega : ¬ 0xc2cff1b5 ≤ b),
        if_pos (⟨by omega, h1⟩ : b < 2 ^ 31 ∧ 0x42b20000 ≤ b),
        if_pos h2, hinf b h2]
    · rw [expm1f, if_neg (by omega : ¬ 0xc18aa123 ≤ b),
        if_pos (⟨by omega, h1⟩ : b < 2 ^ 31 ∧ 0x42b20000 ≤ b),
        if_pos h2, hinf b h2]
  · intro b m h1 h2
    rw [exp2f]
    rw [if_neg (by omega : ¬ (b = 0x3b429d37 ∧ m = RMode.nearest)),
      if_neg (by omega : ¬ (b = 0x3c02a9ad ∧ m = RMode.nearest)),
      if_neg (by omega : ¬ b = 0x3ca66e26),
      if_neg (by omega : ¬ b = 0x3d92a282),
      if_neg (by omega : ¬ (b = 0xbcf3a937 ∧ m = RMode.nearest)),
      if_neg (by omega : ¬ (b = 0xb8d3d026 ∧ m = RMode.nearest)),
      if_pos (by left; omega : 0x43000000 ≤ b % 2 ^ 31 ∨ b % 2 ^ 31 ≤ 0x32800000),
      if_neg (by omega : ¬ b % 2 ^ 31 ≤ 0x32800000),
      if_pos (by omega : b < 2 ^ 31),
      if_pos h2, hinf b h2]

theorem claim_C1_witness :
    ((0x42b20000 : ℕ) ≤ 0x42b20000 ∧ (0x42b20000 : ℕ) < 0x7f800000) ∧
    ((0x43000000 : ℕ) ≤ 0x43800000 ∧ (0x43800000 : ℕ) < 0x7f800000) ∧
    expf 0x42b20000 RMode.downward = some ⟨0x7f7fffff, none⟩ ∧
    exp2f 0x43800000 RMode.nearest = some ⟨0x7f800000, some Errno.ERANGE⟩ := by
  refine ⟨⟨by norm_num, by norm_num⟩, ⟨by norm_num, by norm_num⟩, ?_, ?_⟩
  · exact ((claim_C1.1 0x42b20000 RMode.downward (by norm_num) (by norm_num)).1).trans
      (by decide)
  · exact (claim_C1.2 0x43800000 RMode.nearest (by norm_num) (by norm_num)).trans
      (by decide)

/-- Claim C2: for every finite nonzero float below the underflow-to-zero
threshold (`expf`: bits in `[0xc2cff1b5, 0xff800000)`, i.e. `x < log(2^-150)`
excluding `-∞` and NaN; `exp2f`: bits in `[0xc3160000, 0xff800000)`, i.e.
`x < -150`), the function returns `MIN_SUBNORMAL` (`0x00000001`) under
`FE_UPWARD` without touching `errno`, and under every other mode returns
`+0.0f` and sets `errno = ERANGE`. -/
theorem claim_C2 :
    (∀ (b : ℕ) (m : RMode), 0xc2cff1b5 ≤ b → b < 0xff800000 →
      expf b m = (if m = RMode.upward then some ⟨0x00000001, none⟩
        else some ⟨0, some Errno.ERANGE⟩)) ∧
    (∀ (b : ℕ) (m : RMode), 0xc3160000 ≤ b → b < 0xff800000 →
      exp2f b m = (if m = RMode.upward then some ⟨0x00000001, none⟩
        else some ⟨0, some Errno.ERANGE⟩)) := by
  constructor
  · intro b m h1 h2
    rw [expf, if_neg (by omega),
      if_pos (by left; omega : 0x42b20000 ≤ b % 2 ^ 31 ∨ b % 2 ^ 31 ≤ 0x32800000),
      if_neg (by omega : ¬ b / 2 ^ 23 % 256 ≤ 101),
      if_pos h1,
      if_neg (by omega : ¬ b % 2 ^ 31 = 0x7f800000),
      if_neg (by omega : ¬ 0x7f800000 < b % 2 ^ 31)]
  · intro b m h1 h2
    rw [exp2f,
      if_neg (by omega : ¬ (b = 0x3b429d37 ∧ m = RMode.nearest)),
      if_neg (by omega : ¬ (b = 0x3c02a9ad ∧ m = RMode.nearest)),
      if_neg (by omega : ¬ b = 0x3ca66e26),
      if_neg (by omega : ¬ b = 0x3d92a282),
      if_neg (by omega : ¬ (b = 0xbcf3a937 ∧ m = RMode.nearest)),
      if_neg (by omega : ¬ (b = 0xb8d3d026 ∧ m = RMode.nearest)),
      if_pos (by left; omega : 0x43000000 ≤ b % 2 ^ 31 ∨ b % 2 ^ 31 ≤ 0x32800000),
      if_neg (by omega : ¬ b % 2 ^ 31 ≤ 0x32800000),
      if_neg (by omega : ¬ b < 2 ^ 31),
      if_pos h1,
      if_neg (by omega : ¬ b % 2 ^ 31 = 0x7f800000),
      if_neg (by omega : ¬ 0x7f800000 < b % 2 ^ 31),
      if_neg (toVal_ne_zero_of_normal b (by omega))]

theorem claim_C2_witness :
    ((0xc2cff1b5 : ℕ) ≤ 0xc2cff1b5 ∧ (0xc2cff1b5 : ℕ) < 0xff800000) ∧
    ((0xc3160000 : ℕ) ≤ 0xc3160000 ∧ (0xc3160000 : ℕ) < 0xff800000) ∧
    expf 0xc2cff1b5 RMode.upward = some ⟨0x00000001, none⟩ ∧
    exp2f 0xc3160000 RMode.nearest = some ⟨0, some Errno.ERANGE⟩ := by
  refine ⟨⟨by norm_num, by norm_num⟩, ⟨by norm_num, by norm_num⟩, ?_, ?_⟩
  · exact (claim_C2.1 0xc2cff1b5 RMode.upward (by norm_num) (by norm_num)).trans
      (by decide)
  · exact (claim_C2.2 0xc3160000 RMode.nearest (by norm_num) (by norm_num)).trans
      (by decide)

/-- Claim C3: for infinite input, `sincosf` stores the quiet NaN
`0x7fc00000` into both outputs, sets `errno = EDOM` and raises `FE_INVALID`;
for NaN input it stores a NaN (the quieted input) into both outputs without
setting `errno` or raising any flag. -/
theorem claim_C3 :
    (∀ m : RMode,
      sincosf 0x7f800000 m = some ⟨0x7fc00000, 0x7fc00000, some Errno.EDOM, true⟩ ∧
      sincosf 0xff800000 m = some ⟨0x7fc00000, 0x7fc00000, some Errno.EDOM, true⟩) ∧
    (∀ (b : ℕ) (m : RMode), b < 2 ^ 32 → 0x7f800000 < b % 2 ^ 31 →
      sincosf b m = some ⟨setQuiet b, setQuiet b, none, false⟩ ∧
      0x7f800000 < setQuiet b % 2 ^ 31) := by
  constructor
  · decide
  · intro b m hb hnan
    have h1 : ¬ (b % 2 ^ 31 < 0x39800000) := by omega
    have h2 : 0x7f800000 ≤ b % 2 ^ 31 := by omega
    have h3 : ¬ (b % 2 ^ 31 = 0x7f800000) := by omega
    constructor
    · rw [sincosf, if_neg h1, if_pos h2, if_neg h3, addNanConst, if_pos hnan]
    · rw [setQuiet]
      split_ifs with h
      · omega
      · omega

theorem claim_C3_witness :
    ((0x7fa00001 : ℕ) < 2 ^ 32 ∧ (0x7f800000 : ℕ) < 0x7fa00001 % 2 ^ 31) ∧
    sincosf 0x7fa00001 RMode.nearest
      = some ⟨setQuiet 0x7fa00001, setQuiet 0x7fa00001, none, false⟩ ∧
    0x7f800000 < setQuiet 0x7fa00001 % 2 ^ 31 :=
  ⟨⟨by norm_num, by norm_num⟩,
    claim_C3.2 0x7fa00001 RMode.nearest (by norm_num) (by norm_num)⟩

/-- Claim C4: `exp2f` applied to the bit pattern `0x3b429d37` under
round-to-nearest returns exactly `0x1.00870ap+0f`, whose bit pattern is
`0x3f804385`, with no `errno` side effect. -/
theorem claim_C4 :
    exp2f 0x3b429d37 RMode.nearest = some ⟨0x3f804385, none⟩ := by decide

/-- Claim C6: both `expm1f` implementations map `-0.0f` (pattern
`0x80000000`) to `-0.0f` bit-for-bit, under every rounding mode, with no
`errno` side effect (the branch returns the input directly and performs no
operation that could raise a flag). -/
theorem claim_C6 : ∀ m : RMode,
    expm1f 0x80000000 m = some ⟨0x80000000, none⟩ ∧
    expm1f_alt 0x80000000 m = some ⟨0x80000000, none⟩ := by decide

/-- Claim C7: for each of the ten exceptional inputs of `sincosf` (matched
on the absolute-value bit pattern), each sign, and each of the four rounding
modes, `sincosf` stores exactly the tabulated patterns: the round-toward-zero
base entries plus the tabulated sign- and mode-selected increments, with the
sine output negated for negative inputs, and no `errno` or flag effect. -/
theorem claim_C7 : ∀ (i : Fin 10) (sgn : Bool) (m : RMode),
    sincosf (if sgn then fnegBits (EXCEPT_INPUTS.getD i.val 0)
             else EXCEPT_INPUTS.getD i.val 0) m
      = some ⟨(if sgn then fnegBits (sinPattern i.val m sgn) else sinPattern i.val m sgn),
              cosPattern i.val m, none, false⟩ := by decide

/-- Claim C10 (corrected), counterexample: the claim states that for NaN
input both `expm1f` implementations return the input NaN; but for the
positive signaling NaN `0x7f800001` both return `x + ∞`, which quiets the
NaN: the result is `0x7fc00001`, not the input pattern. -/
theorem claim_C10_counterexample :
    expm1f 0x7f800001 RMode.nearest = some ⟨0x7fc00001, none⟩ ∧
    expm1f_alt 0x7f800001 RMode.nearest = some ⟨0x7fc00001, none⟩ ∧
    (0x7fc00001 : ℕ) ≠ 0x7f800001 := by decide

/-- Claim C10 (amended): the two `expm1f` implementations agree on every
input of the listed non-general-path families, with the values claimed:
`-∞ ↦ -1.0f`; NaN input gives the same NaN from both — the input itself for
negative NaNs, the input with the quiet bit set for positive NaNs (both
compute `x + ∞`); `-0.0f ↦ -0.0f`; for `|x| < 2^-25` (except `-0.0f`) both
return `fma(x, x, x)`; and for finite `x ≥ 89` both return `MAX_NORMAL`
under `FE_DOWNWARD`/`FE_TOWARDZERO` and otherwise set `ERANGE` and return
`+∞`. -/
theorem claim_C10 :
    (∀ m : RMode,
      expm1f 0xff800000 m = some ⟨0xbf800000, none⟩ ∧
      expm1f_alt 0xff800000 m = some ⟨0xbf800000, none⟩) ∧
    (∀ (b : ℕ) (m : RMode), b < 2 ^ 32 → 0x7f800000 < b % 2 ^ 31 →
      expm1f b m = expm1f_alt b m ∧
      expm1f b m = some ⟨if b < 2 ^ 31 then setQuiet b else b, none⟩) ∧
    (∀ m : RMode,
      expm1f 0x80000000 m = some ⟨0x80000000, none⟩ ∧
      expm1f_alt 0x80000000 m = some ⟨0x80000000, none⟩) ∧
    (∀ (b : ℕ) (m : RMode), b < 2 ^ 32 → b % 2 ^ 31 < 0x33000000 →
      b ≠ 0x80000000 →
      expm1f b m = some ⟨fma32 m b b b, none⟩ ∧
      expm1f_alt b m = some ⟨fma32 m b b b, none⟩) ∧
    (∀ (b : ℕ) (m : RMode), 0x42b20000 ≤ b → b < 0x7f800000 →
      expm1f b m = expm1f_alt b m ∧
      expm1f b m = (if m = RMode.downward ∨ m = RMode.towardzero
        then some ⟨0x7f7fffff, none⟩ else some ⟨0x7f800000, some Errno.ERANGE⟩)) := by
  refine ⟨by decide, ?_, by decide, ?_, ?_⟩
  · -- NaN inputs
    intro b m hb hnan
    by_cases hs : b < 2 ^ 31
    · -- positive NaN: both take the overflow branch and return x + inf
      have e1 : expm1f b m = some ⟨addWithInf b, none⟩ := by
        rw [expm1f, if_neg (by omega : ¬ 0xc18aa123 ≤ b),
          if_pos (⟨hs, by omega⟩ : b < 2 ^ 31 ∧ 0x42b20000 ≤ b),
          if_neg (by omega : ¬ b < 0x7f800000)]
      have e2 : expm1f_alt b m = some ⟨addWithInf b, none⟩ := by
        rw [expm1f_alt, if_neg (by omega : ¬ b = 0x3e35bec5),
          if_pos (by omega : 0x418aa123 ≤ b % 2 ^ 31),
          if_neg (by omega : ¬ 2 ^ 31 ≤ b),
          if_pos (by omega : 0x42b20000 ≤ b),
          if_neg (by omega : ¬ b < 0x7f800000)]
      rw [e1, e2, addWithInf, if_pos hnan, if_pos hs]
      exact ⟨rfl, rfl⟩
    · -- negative NaN: both return x unchanged
      have e1 : expm1f b m = some ⟨b, none⟩ := by
        rw [expm1f, if_pos (by omega : 0xc18aa123 ≤ b),
          if_neg (by omega : ¬ b % 2 ^ 31 = 0x7f800000),
          if_pos hnan]
      have e2 : expm1f_alt b m = some ⟨b, none⟩ := by
        rw [expm1f_alt, if_neg (by omega : ¬ b = 0x3e35bec5),
          if_pos (by omega : 0x418aa123 ≤ b % 2 ^ 31),
          if_pos (by omega : 2 ^ 31 ≤ b),
          if_neg (by omega : ¬ b % 2 ^ 31 = 0x7f800000),
          if_pos hnan]
      rw [e1, e2, if_neg hs]
      exact ⟨rfl, rfl⟩
  · -- |x| < 2^-25, x ≠ -0.0f: both return fma(x, x, x)
    intro b m hb htiny hnz
    constructor
    · rw [expm1f, if_neg (by omega : ¬ 0xc18aa123 ≤ b),
        if_neg (by omega : ¬ (b < 2 ^ 31 ∧ 0x42b20000 ≤ b)),
        if_pos (by omega : b / 2 ^ 23 % 256 < 123),
        if_pos (by omega : b / 2 ^ 23 % 256 < 102),
        if_neg hnz]
    · rw [expm1f_alt, if_neg (by omega : ¬ b = 0x3e35bec5),
        if_neg (by omega : ¬ 0x418aa123 ≤ b % 2 ^ 31), expm1f_alt_tail,
        if_pos (by omega : b % 2 ^ 31 < 0x3d800000),
        if_pos htiny,
        if_neg hnz]
  · -- finite x ≥ 89: identical overflow behaviour
    intro b m h1 h2
    have hinf : addWithInf b = 0x7f800000 := by
      rw [addWithInf, if_neg (by omega)]
    have e1 : expm1f b m = (if m = RMode.downward ∨ m = RMode.towardzero
        then some ⟨0x7f7fffff, none⟩ else some ⟨0x7f800000, some Errno.ERANGE⟩) := by
      rw [expm1f, if_neg (by omega : ¬ 0xc18aa123 ≤ b),
        if_pos (⟨by omega, h1⟩ : b < 2 ^ 31 ∧ 0x42b20000 ≤ b),
        if_pos h2, hinf]
    have e2 : expm1f_alt b m = (if m = RMode.downward ∨ m = RMode.towardzero
        then some ⟨0x7f7fffff, none⟩ else some ⟨0x7f800000, some Errno.ERANGE⟩) := by
      rw [expm1f_alt, if_neg (by omega : ¬ b = 0x3e35bec5),
        if_pos (by omega : 0x418aa123 ≤ b % 2 ^ 31),
        if_neg (by omega : ¬ 2 ^ 31 ≤ b),
        if_pos h1, if_pos h2, hinf]
    exact ⟨e1.trans e2.symm, e1⟩

theorem claim_C10_witness :
    ((0x7fc00123 : ℕ) < 2 ^ 32 ∧ (0x7f800000 : ℕ) < 0x7fc00123 % 2 ^ 31) ∧
    ((0x00000003 : ℕ) < 2 ^ 32 ∧ (0x00000003 : ℕ) % 2 ^ 31 < 0x33000000 ∧
      (0x00000003 : ℕ) ≠ 0x80000000) ∧
    ((0x42b20000 : ℕ) ≤ 0x7f000000 ∧ (0x7f000000 : ℕ) < 0x7f800000) ∧
    expm1f 0x7fc00123 RMode.nearest = expm1f_alt 0x7fc00123 RMode.nearest ∧
    expm1f 0x00000003 RMode.upward = some ⟨fma32 RMode.upward 3 3 3, none⟩ ∧
    expm1f 0x7f000000 RMode.towardzero = expm1f_alt 0x7f000000 RMode.towardzero :=
  ⟨⟨by norm_num, by norm_num⟩, ⟨by norm_num, by norm_num, by norm_num⟩,
    ⟨by norm_num, by norm_num⟩,
    (claim_C10.2.1 0x7fc00123 RMode.nearest (by norm_num) (by norm_num)).1,
    (claim_C10.2.2.2.1 0x00000003 RMode.upward (by norm_num) (by norm_num)
      (by norm_num)).1,
    (claim_C10.2.2.2.2 0x7f000000 RMode.towardzero (by norm_num) (by norm_num)).1⟩

theorem truncZ_bounds (q : ℚ) :
    (0 ≤ q → (truncZ q : ℚ) ≤ q ∧ q < truncZ q + 1) ∧
    (q < 0 → q ≤ (truncZ q : ℚ) ∧ (truncZ q : ℚ) < q + 1) := by
  constructor
  · intro h
    rw [truncZ, roundInt, if_pos h]
    exact ⟨Int.floor_le q, Int.lt_floor_add_one q⟩
  · intro h
    rw [truncZ, roundInt, if_neg (not_le.mpr h)]
    exact ⟨Int.le_ceil q, by
      have := Int.ceil_lt_add_one q
      push_cast at this ⊢
      linarith⟩

theorem toVal_normal (b : ℕ) (e' : ℕ) (he : b / 2 ^ 23 % 256 = e' + 1) :
    toVal b = (((if 2 ^ 31 ≤ b then -((2 : ℤ) ^ 23 + (b % 2 ^ 23 : ℕ))
        else ((2 : ℤ) ^ 23 + (b % 2 ^ 23 : ℕ)) : ℤ)) : ℚ) *
      (2 : ℚ) ^ ((e' + 1 : ℤ) - 150) := by
  rw [toVal, he]
  simp only [f32_to_rat]
  split_ifs with hs
  · push_cast
    ring_nf
    norm_cast
    ring
  · push_cast
    ring_nf
    norm_cast
    ring

theorem reduce_invariant (m : RMode) (n g : ℤ) (hn2 : n.natAbs < 2 ^ 24)
    (hg1 : -27 ≤ g) (hg2 : g ≤ -17) :
    -(1/256 : ℚ) ≤ (expm1f_reduce m ((n : ℚ) * (2 : ℚ) ^ g)).2 ∧
    (expm1f_reduce m ((n : ℚ) * (2 : ℚ) ^ g)).2 < 1/256 ∧
    (((expm1f_reduce m ((n : ℚ) * (2 : ℚ) ^ g)).1 - 104 * 128 : ℤ) : ℚ) * (1/128) +
      (expm1f_reduce m ((n : ℚ) * (2 : ℚ) ^ g)).2 = (n : ℚ) * (2 : ℚ) ^ g := by
  have h2 : (2 : ℚ) ≠ 0 := by norm_num
  set x : ℚ := (n : ℚ) * (2 : ℚ) ^ g with hx
  -- |x| < 2^7
  have hnabs : |(n : ℚ)| < (2 : ℚ) ^ (24 : ℤ) := by
    have h1 : |(n : ℚ)| = ((n.natAbs : ℕ) : ℚ) := by simp [Int.cast_natAbs]
    rw [h1, show ((2 : ℚ) ^ (24 : ℤ)) = ((2 ^ 24 : ℕ) : ℚ) by norm_num]
    exact_mod_cast hn2
  have habs : |x| < (2 : ℚ) ^ (7 : ℤ) := by
    rw [hx, abs_mul, abs_of_pos (show (0:ℚ) < (2:ℚ) ^ g by positivity)]
    calc |(n : ℚ)| * (2 : ℚ) ^ g
        < (2 : ℚ) ^ (24 : ℤ) * (2 : ℚ) ^ g := by
          apply mul_lt_mul_of_pos_right hnabs (by positivity)
      _ = (2 : ℚ) ^ (24 + g) := (zpow_add₀ h2 _ _).symm
      _ ≤ (2 : ℚ) ^ (7 : ℤ) := by
          apply zpow_le_zpow_right₀ (by norm_num)
          omega
  -- step A : x * 128 rounds to itself
  have hA : round32v m (x * 128) = x * 128 := by
    apply fround_eq_self 24 (-149) (by norm_num) m
    refine ⟨n, g + 7, ?_, hn2, by omega⟩
    rw [hx, zpow_add₀ h2, mul_assoc]
    norm_num
  have hyabs : |x * 128| < (2 : ℚ) ^ (14 : ℤ) := by
    rw [abs_mul, abs_of_pos (show (0:ℚ) < 128 by norm_num)]
    calc |x| * 128 < (2 : ℚ) ^ (7 : ℤ) * 128 := by
          apply mul_lt_mul_of_pos_right habs (by norm_num)
      _ = (2 : ℚ) ^ (14 : ℤ) := by
          rw [show (14 : ℤ) = 7 + 7 by norm_num, zpow_add₀ h2]
          norm_num
  set xh : ℤ := truncZ (x * 128) with hxh
  -- integer bounds on xh
  have hq14 : ((2 : ℚ) ^ (14 : ℤ)) = ((2 ^ 14 : ℤ) : ℚ) := by norm_num
  have hxhbounds : -(2 ^ 14) < xh ∧ xh < 2 ^ 14 := by
    rcases le_or_lt 0 (x * 128) with hpos | hneg
    · have hb := (truncZ_bounds (x * 128)).1 hpos
      have h1 : (xh : ℚ) < ((2 ^ 14 : ℤ) : ℚ) := by
        rw [← hq14]
        calc (xh : ℚ) ≤ x * 128 := hb.1
          _ ≤ |x * 128| := le_abs_self _
          _ < _ := hyabs
      have h2' : ((0 : ℤ) : ℚ) < (xh : ℚ) + 1 := by push_cast; linarith [hb.2]
      have h3 : (0 : ℤ) < xh + 1 := by exact_mod_cast h2'
      have h4 : xh < 2 ^ 14 := by exact_mod_cast h1
      omega
    · have hb := (truncZ_bounds (x * 128)).2 hneg
      have h1 : ((-(2 ^ 14) : ℤ) : ℚ) < (xh : ℚ) := by
        have hax : -|x * 128| ≤ x * 128 := neg_abs_le _
        have : ((-(2 ^ 14) : ℤ) : ℚ) < x * 128 := by
          push_cast
          rw [← hq14] at *
          linarith [hyabs]
        linarith [hb.1]
      have h2' : (xh : ℚ) < ((1 : ℤ) : ℚ) := by push_cast; linarith [hb.2]
      have h3 : -(2 ^ 14) < xh := by exact_mod_cast h1
      have h4 : xh < 1 := by exact_mod_cast h2'
      omega
  -- step C : int-to-float conversion of x_hi is exact
  have hC : round32v m ((xh : ℚ)) = (xh : ℚ) := by
    apply fround_eq_self 24 (-149) (by norm_num) m
    exact ⟨xh, 0, by norm_num, by omega, by norm_num⟩
  -- step D : float(x_hi) * 0x1.0p-7f is exact
  have hD : round32v m ((xh : ℚ) * (1/128)) = (xh : ℚ) * (1/128) := by
    apply fround_eq_self 24 (-149) (by norm_num) m
    refine ⟨xh, -7, ?_, by omega, by norm_num⟩
    rw [show ((2:ℚ) ^ (-7 : ℤ)) = 1/128 by norm_num [zpow_neg]]
  -- step E : the subtraction x - x_hi * 2^-7 is exact (common-grid argument)
  have htn : (((-7 - g).toNat : ℕ) : ℤ) = -7 - g := Int.toNat_of_nonneg (by omega)
  have hp7 : ((2 : ℚ) ^ ((-7 - g).toNat : ℕ)) * (2 : ℚ) ^ g = 1/128 := by
    rw [← zpow_natCast (2:ℚ) ((-7 - g).toNat), htn, ← zpow_add₀ h2,
      show (-7 : ℤ) - g + g = -7 by ring]
    norm_num [zpow_neg]
  set r : ℤ := n - xh * 2 ^ ((-7 - g).toNat) with hrdef
  have hDval : x - (xh : ℚ) * (1/128) = (r : ℚ) * (2 : ℚ) ^ g := by
    rw [hrdef, hx]
    push_cast
    rw [sub_mul, mul_assoc, hp7]
  have hDb : (0 ≤ x → 0 ≤ x - (xh : ℚ) * (1/128) ∧ x - (xh : ℚ) * (1/128) < 1/128) ∧
      (x < 0 → -(1/128) < x - (xh : ℚ) * (1/128) ∧ x - (xh : ℚ) * (1/128) ≤ 0) := by
    constructor
    · intro hp
      have hb := (truncZ_bounds (x * 128)).1 (by linarith)
      rw [← hxh] at hb
      constructor
      · linarith [hb.1]
      · linarith [hb.2]
    · intro hneg
      have hb := (truncZ_bounds (x * 128)).2 (by linarith)
      rw [← hxh] at hb
      constructor
      · linarith [hb.2]
      · linarith [hb.1]
  have hrnab : ∀ (r' : ℤ) (k : ℤ) (K : ℕ), |(r' : ℚ) * (2:ℚ) ^ g| < (2:ℚ) ^ k →
      k - g ≤ (K : ℤ) → r'.natAbs < 2 ^ K := by
    intro r' k K habs' hK
    have hgpos : (0:ℚ) < (2:ℚ) ^ g := by positivity
    rw [abs_mul, abs_of_pos hgpos] at habs'
    have h1 : |(r' : ℚ)| < (2:ℚ) ^ (k - g) := by
      rw [zpow_sub₀ h2, lt_div_iff₀ hgpos]
      exact habs'
    have h2' : |(r' : ℚ)| < (2:ℚ) ^ ((K : ℤ)) := by
      calc |(r' : ℚ)| < (2:ℚ) ^ (k - g) := h1
        _ ≤ (2:ℚ) ^ ((K : ℤ)) := by
            apply zpow_le_zpow_right₀ (by norm_num) hK
    have h3 : ((r'.natAbs : ℕ) : ℚ) < ((2 ^ K : ℕ) : ℚ) := by
      rw [show ((r'.natAbs : ℕ) : ℚ) = |(r' : ℚ)| by simp [Int.cast_natAbs],
        show ((2 ^ K : ℕ) : ℚ) = (2:ℚ) ^ ((K : ℤ)) by push_cast [zpow_natCast]; norm_num]
      exact h2'
    exact_mod_cast h3
  have hE : round32v m (x - (xh : ℚ) * (1/128)) = x - (xh : ℚ) * (1/128) := by
    apply fround_eq_self 24 (-149) (by norm_num) m
    refine ⟨r, g, hDval, ?_, by omega⟩
    apply hrnab r (-7) 24
    · rw [← hDval]
      rw [show ((2:ℚ) ^ (-7 : ℤ)) = 1/128 by norm_num [zpow_neg]]
      rcases le_or_lt 0 x with hp | hneg
      · have := hDb.1 hp
        rw [abs_of_nonneg this.1]
        exact this.2
      · have := hDb.2 hneg
        rw [abs_of_nonpos this.2]
        linarith [this.1]
    · omega
  -- unfold the reduction and rewrite the exact roundings
  simp only [expm1f_reduce]
  rw [hA, ← hxh, hC, hD, hE]
  set D : ℚ := x - (xh : ℚ) * (1/128) with hDdef
  clear_value D
  by_cases h1 : (1 : ℚ)/256 ≤ D
  · -- boundary renormalization: ++x_hi, xd -= 2^-7
    have hxpos : 0 ≤ x := by
      by_contra hc
      have := (hDb.2 (not_le.mp hc)).2
      linarith
    have hDlt : D < 1/128 := (hDb.1 hxpos).2
    have hF1 : round64v m (D - 1/128) = D - 1/128 := by
      apply fround_eq_self 53 (-1074) (by norm_num) m
      refine ⟨r - 2 ^ ((-7 - g).toNat), g, ?_, ?_, by omega⟩
      · rw [hDval]
        push_cast
        rw [sub_mul, hp7]
      · apply hrnab (r - 2 ^ ((-7 - g).toNat)) (-7) 53
        · have hveq : ((r - 2 ^ ((-7 - g).toNat) : ℤ) : ℚ) * (2:ℚ) ^ g = D - 1/128 := by
            rw [hDval]
            push_cast
            rw [sub_mul, hp7]
          rw [hveq, show ((2:ℚ) ^ (-7 : ℤ)) = 1/128 by norm_num [zpow_neg]]
          rw [abs_of_nonpos (by linarith)]
          linarith
        · omega
    rw [if_pos h1, hF1]
    have hnot2 : ¬ D < -(1/256) := by linarith
    rw [if_neg hnot2]
    refine ⟨by linarith, by linarith, ?_⟩
    push_cast
    rw [hDdef]
    ring
  · by_cases h2' : D < -(1/256)
    · -- boundary renormalization: --x_hi, xd += 2^-7
      have hxneg : x < 0 := by
        by_contra hc
        have := (hDb.1 (not_lt.mp hc)).1
        linarith
      have hDgt : -(1/128) < D := (hDb.2 hxneg).1
      have hF2 : round64v m (D + 1/128) = D + 1/128 := by
        apply fround_eq_self 53 (-1074) (by norm_num) m
        refine ⟨r + 2 ^ ((-7 - g).toNat), g, ?_, ?_, by omega⟩
        · rw [hDval]
          push_cast
          rw [add_mul, hp7]
        · apply hrnab (r + 2 ^ ((-7 - g).toNat)) (-8) 53
          · have hveq : ((r + 2 ^ ((-7 - g).toNat) : ℤ) : ℚ) * (2:ℚ) ^ g = D + 1/128 := by
              rw [hDval]
              push_cast
              rw [add_mul, hp7]
            rw [hveq, show ((2:ℚ) ^ (-8 : ℤ)) = 1/256 by norm_num [zpow_neg]]
            rw [abs_of_nonneg (by linarith)]
            linarith
          · omega
      rw [if_neg h1, if_pos h2', hF2]
      refine ⟨by linarith, by linarith, ?_⟩
      push_cast
      rw [hDdef]
      ring
    · -- already in range
      rw [if_neg h1, if_neg h2']
      refine ⟨by linarith, by linarith, ?_⟩
      push_cast
      rw [hDdef]
      ring

/-- Claim C8: on the general path of `expm1f` (inputs with `2^-4 ≤ |x|`,
`-18 < x < 89`, not special and not the exceptional value — exactly the
inputs that fail every earlier branch guard), the residual produced by the
range reduction with its explicit boundary renormalization always satisfies
`-2^-8 ≤ lo < 2^-8`, and the decomposition `x = (x_hi - 104·2^7)·2^-7 + lo`
is exact. -/
theorem claim_C8 : ∀ (b : ℕ) (m : RMode), b < 2 ^ 32 →
    ¬ 0xc18aa123 ≤ b → ¬ (b < 2 ^ 31 ∧ 0x42b20000 ≤ b) →
    123 ≤ b / 2 ^ 23 % 256 → b ≠ 0xbdc1c6cb →
    -(1/256 : ℚ) ≤ (expm1f_reduce m (toVal b)).2 ∧
    (expm1f_reduce m (toVal b)).2 < 1/256 ∧
    (((expm1f_reduce m (toVal b)).1 - 104 * 128 : ℤ) : ℚ) * (1/128) +
      (expm1f_reduce m (toVal b)).2 = toVal b := by
  intro b m hb h1 h2 h3 hexc
  obtain ⟨e', he⟩ : ∃ e', b / 2 ^ 23 % 256 = e' + 1 :=
    ⟨b / 2 ^ 23 % 256 - 1, by omega⟩
  rw [toVal_normal b e' he]
  set n : ℤ := if 2 ^ 31 ≤ b then -((2 : ℤ) ^ 23 + (b % 2 ^ 23 : ℕ))
    else ((2 : ℤ) ^ 23 + (b % 2 ^ 23 : ℕ)) with hn
  apply reduce_invariant m n ((e' + 1 : ℤ) - 150)
  · have hm : (b % 2 ^ 23 : ℕ) < 2 ^ 23 := Nat.mod_lt _ (by norm_num)
    rw [hn]
    split_ifs <;> omega
  · omega
  · -- e' + 1 ≤ 133 : positive inputs are below 0x42b20000, negative below 0xc18aa123
    omega

theorem claim_C8_witness :
    ((0x3f800000 : ℕ) < 2 ^ 32 ∧ ¬ (0xc18aa123 : ℕ) ≤ 0x3f800000 ∧
      ¬ ((0x3f800000 : ℕ) < 2 ^ 31 ∧ (0x42b20000 : ℕ) ≤ 0x3f800000) ∧
      123 ≤ (0x3f800000 : ℕ) / 2 ^ 23 % 256 ∧ (0x3f800000 : ℕ) ≠ 0xbdc1c6cb) ∧
    (-(1/256 : ℚ) ≤ (expm1f_reduce RMode.nearest (toVal 0x3f800000)).2 ∧
      (expm1f_reduce RMode.nearest (toVal 0x3f800000)).2 < 1/256 ∧
      (((expm1f_reduce RMode.nearest (toVal 0x3f800000)).1 - 104 * 128 : ℤ) : ℚ) *
        (1/128) + (expm1f_reduce RMode.nearest (toVal 0x3f800000)).2
        = toVal 0x3f800000) :=
  ⟨⟨by norm_num, by norm_num, by norm_num, by norm_num, by norm_num⟩,
    claim_C8 0x3f800000 RMode.nearest (by norm_num) (by norm_num) (by norm_num)
      (by norm_num) (by norm_num)⟩

theorem truncZ_eq_zero (q : ℚ) (h1 : -1 < q) (h2 : q < 1) : truncZ q = 0 := by
  rcases le_or_lt 0 q with h | h
  · rw [truncZ, roundInt, if_pos h]
    exact Int.floor_eq_zero_iff.mpr ⟨h, h2⟩
  · rw [truncZ, roundInt, if_neg (not_le.mpr h)]
    have hc1 : ⌈q⌉ ≤ 0 := Int.ceil_le.mpr (by exact_mod_cast le_of_lt h)
    have hc2 : (-1 : ℤ) < ⌈q⌉ := by
      have hq : (-1 : ℚ) < (⌈q⌉ : ℚ) := lt_of_lt_of_le h1 (Int.le_ceil q)
      exact_mod_cast hq
    omega

/-- Binary64 rounding stays within one grid unit `2^(k-52)` of the value, for
any value bounded by `2^k` (any mode, `k ≥ -1022`). -/
theorem round64_enclose (m : RMode) (q lo hi : ℚ) (k : ℤ) (hlo : lo ≤ q)
    (hhi : q ≤ hi) (h0 : q ≠ 0) (hab : |q| ≤ (2 : ℚ) ^ k) (hk : -1022 ≤ k) :
    lo - (2 : ℚ) ^ (k - 52) ≤ round64v m q ∧
    round64v m q ≤ hi + (2 : ℚ) ^ (k - 52) := by
  have h := fround_dist_lt 53 (-1074) m q k h0 hab
  have hmax : (-1074 : ℤ) ⊔ (k - (((53 : ℕ) : ℤ) - 1)) = k - 52 := by
    push_cast
    omega
  rw [hmax] at h
  rw [abs_sub_lt_iff] at h
  rw [round64v]
  constructor
  · linarith [h.2]
  · linarith [h.1]

/-- Product bounds for an interval times a nonnegative interval, when the
first factor is nonnegative. -/
theorem mul_bounds_pos (x p xl xh a b' : ℚ) (hx1 : xl ≤ x) (hx2 : x ≤ xh)
    (hxl : 0 ≤ xl) (ha : a ≤ p) (hb : p ≤ b') (ha0 : 0 ≤ a) :
    xl * a ≤ x * p ∧ x * p ≤ xh * b' := by
  constructor
  · nlinarith
  · nlinarith

/-- Product bounds for a nonpositive interval times a nonnegative interval. -/
theorem mul_bounds_neg (x p xl xh a b' : ℚ) (hx1 : xl ≤ x) (hx2 : x ≤ xh)
    (hxh : xh ≤ 0) (ha : a ≤ p) (hb : p ≤ b') (ha0 : 0 ≤ a) :
    xl * b' ≤ x * p ∧ x * p ≤ xh * a := by
  constructor
  · nlinarith
  · nlinarith

theorem fround_formula (p : ℕ) (emin : ℤ) (m : RMode) (q : ℚ) (hq : q ≠ 0)
    (E : ℤ) (hE : max emin (ilog2 q - ((p : ℤ) - 1)) = E) :
    fround p emin m q = (roundInt m (q * (2 : ℚ) ^ (-E)) : ℚ) * (2 : ℚ) ^ E := by
  rw [fround, if_neg hq, hE]

theorem ilog2_one_interval (v : ℚ) (h1 : 1 ≤ v) (h2 : v < 2) : ilog2 v = 0 := by
  apply ilog2_unique
  · rw [abs_of_pos (by linarith)]
    simpa using h1
  · rw [abs_of_pos (by linarith)]
    simpa using h2

theorem ilog2_half_interval (v : ℚ) (h1 : 1/2 ≤ v) (h2 : v < 1) :
    ilog2 v = -1 := by
  apply ilog2_unique
  · rw [abs_of_pos (by linarith),
      show ((2:ℚ) ^ (-1 : ℤ)) = 1/2 by norm_num]
    exact h1
  · rw [abs_of_pos (by linarith),
      show ((2:ℚ) ^ ((-1 : ℤ) + 1)) = 1 by norm_num]
    exact h2

theorem round32_nearest_one (v : ℚ) (h1 : 1 - 1/33554432 ≤ v)
    (h2 : v ≤ 1 + 1/16777216) : round32v RMode.nearest v = 1 := by
  have hv0 : v ≠ 0 := by intro h; rw [h] at h1; norm_num at h1
  rcases le_or_lt 1 v with hge | hlt
  · have hil : ilog2 v = 0 := ilog2_one_interval v hge (by linarith)
    rw [round32v, fround_formula 24 (-149) RMode.nearest v hv0 (-23)
      (by rw [hil]; push_cast; omega)]
    rw [show ((2:ℚ) ^ (-(-23 : ℤ))) = 8388608 by norm_num]
    have hfl : ⌊v * 8388608⌋ = 8388608 := by
      rw [Int.floor_eq_iff]
      constructor
      · push_cast
        nlinarith
      · push_cast
        nlinarith
    simp only [roundInt, hfl]
    split_ifs with ha hb hc
    · norm_num
    · exfalso
      push_cast at hb
      nlinarith
    · norm_num
    · exfalso
      omega
  · have hil : ilog2 v = -1 := ilog2_half_interval v (by linarith) hlt
    rw [round32v, fround_formula 24 (-149) RMode.nearest v hv0 (-24)
      (by rw [hil]; push_cast; omega)]
    rw [show ((2:ℚ) ^ (-(-24 : ℤ))) = 16777216 by norm_num]
    have hfl : ⌊v * 16777216⌋ = 16777215 := by
      rw [Int.floor_eq_iff]
      constructor
      · push_cast
        nlinarith
      · push_cast
        nlinarith
    simp only [roundInt, hfl]
    split_ifs with ha hb hc
    · exfalso
      push_cast at ha
      nlinarith
    · push_cast
      norm_num
    · exfalso
      omega
    · push_cast
      norm_num

theorem round32_up_above_one (v : ℚ) (h1 : 1 < v) (h2 : v ≤ 1 + 1/8388608) :
    round32v RMode.upward v = 1 + 1/8388608 := by
  have hv0 : v ≠ 0 := by intro h; rw [h] at h1; norm_num at h1
  have hil : ilog2 v = 0 := ilog2_one_interval v (le_of_lt h1) (by linarith)
  rw [round32v, fround_formula 24 (-149) RMode.upward v hv0 (-23)
    (by rw [hil]; push_cast; omega)]
  rw [show ((2:ℚ) ^ (-(-23 : ℤ))) = 8388608 by norm_num]
  have hcl : ⌈v * 8388608⌉ = 8388609 := by
    rw [Int.ceil_eq_iff]
    constructor
    · push_cast
      nlinarith
    · push_cast
      nlinarith
  simp only [roundInt, hcl]
  push_cast
  norm_num

theorem round32_up_below_one (v : ℚ) (h1 : 1 - 1/16777216 < v) (h2 : v ≤ 1) :
    round32v RMode.upward v = 1 := by
  have hv0 : v ≠ 0 := by intro h; rw [h] at h1; norm_num at h1
  rcases lt_or_eq_of_le h2 with hlt | heq
  · have hil : ilog2 v = -1 := ilog2_half_interval v (by linarith) hlt
    rw [round32v, fround_formula 24 (-149) RMode.upward v hv0 (-24)
      (by rw [hil]; push_cast; omega)]
    rw [show ((2:ℚ) ^ (-(-24 : ℤ))) = 16777216 by norm_num]
    have hcl : ⌈v * 16777216⌉ = 16777216 := by
      rw [Int.ceil_eq_iff]
      constructor
      · push_cast
        nlinarith
      · push_cast
        nlinarith
    simp only [roundInt, hcl]
    push_cast
    norm_num
  · rw [heq]
    exact fround_eq_self 24 (-149) (by norm_num) _ 1
      ⟨1, 0, by norm_num, by norm_num, by norm_num⟩

theorem round32_down_above_one (v : ℚ) (h1 : 1 ≤ v) (h2 : v < 1 + 1/8388608) :
    round32v RMode.downward v = 1 := by
  have hv0 : v ≠ 0 := by intro h; rw [h] at h1; norm_num at h1
  have hil : ilog2 v = 0 := ilog2_one_interval v h1 (by linarith)
  rw [round32v, fround_formula 24 (-149) RMode.downward v hv0 (-23)
    (by rw [hil]; push_cast; omega)]
  rw [show ((2:ℚ) ^ (-(-23 : ℤ))) = 8388608 by norm_num]
  have hfl : ⌊v * 8388608⌋ = 8388608 := by
    rw [Int.floor_eq_iff]
    constructor
    · push_cast
      nlinarith
    · push_cast
      nlinarith
  simp only [roundInt, hfl]
  push_cast
  norm_num

theorem round32_down_below_one (v : ℚ) (h1 : 1 - 1/16777216 ≤ v) (h2 : v < 1) :
    round32v RMode.downward v = 1 - 1/16777216 := by
  have hv0 : v ≠ 0 := by intro h; rw [h] at h1; norm_num at h1
  have hil : ilog2 v = -1 := ilog2_half_interval v (by linarith) h2
  rw [round32v, fround_formula 24 (-149) RMode.downward v hv0 (-24)
    (by rw [hil]; push_cast; omega)]
  rw [show ((2:ℚ) ^ (-(-24 : ℤ))) = 16777216 by norm_num]
  have hfl : ⌊v * 16777216⌋ = 16777215 := by
    rw [Int.floor_eq_iff]
    constructor
    · push_cast
      nlinarith
    · push_cast
      nlinarith
  simp only [roundInt, hfl]
  push_cast
  norm_num

theorem round32_zero_eq_down (v : ℚ) (h : 0 ≤ v) :
    round32v RMode.towardzero v = round32v RMode.downward v := by
  rcases eq_or_lt_of_le h with h0 | h0
  · rw [round32v, round32v, ← h0, fround_zero, fround_zero]
  · rw [round32v, round32v, fround, fround, if_neg (ne_of_gt h0),
      if_neg (ne_of_gt h0)]
    congr 1
    rw [show roundInt RMode.towardzero
        (v * 2 ^ (-((-149 : ℤ) ⊔ (ilog2 v - (((24:ℕ) : ℤ) - 1)))))
        = ⌊v * 2 ^ (-((-149 : ℤ) ⊔ (ilog2 v - (((24:ℕ) : ℤ) - 1))))⌋ from by
      rw [roundInt, if_pos (by positivity)]]
    rfl

/-- Binary32 rounding stays within one grid unit `2^(k-23)` of the value, for
any value bounded by `2^k` (any mode, `k ≥ -126`). -/
theorem round32_enclose (m : RMode) (q lo hi : ℚ) (k : ℤ) (hlo : lo ≤ q)
    (hhi : q ≤ hi) (h0 : q ≠ 0) (hab : |q| ≤ (2 : ℚ) ^ k) (hk : -126 ≤ k) :
    lo - (2 : ℚ) ^ (k - 23) ≤ round32v m q ∧
    round32v m q ≤ hi + (2 : ℚ) ^ (k - 23) := by
  have h := fround_dist_lt 24 (-149) m q k h0 hab
  have hmax : (-149 : ℤ) ⊔ (k - (((24 : ℕ) : ℤ) - 1)) = k - 23 := by
    push_cast
    omega
  rw [hmax] at h
  rw [abs_sub_lt_iff] at h
  rw [round32v]
  constructor
  · linarith [h.2]
  · linarith [h.1]


/-- Interval enclosure of the rounded Horner evaluation of the `expf`
degree-4 polynomial over the positive annulus `(2^-26, 2^-25)`: one
`round64_enclose` step per multiplication and addition, with fixed per-step
grid exponents. -/
theorem expf_poly_bounds_pos (m : RMode) (x : ℚ)
    (hx1 : ((8388609 : ℚ) / 2 ^ 49) ≤ x) (hx2 : x ≤ ((16777215 : ℚ) / 2 ^ 49)) :
    ((14474011370344118655293850251871019742558238357655490935566642456543952302659 : ℚ) / 2 ^ 253) ≤ polyeval64 m x [(1 : ℚ), (9007199254738807 : ℚ) / 2 ^ 53, (1125899906843079 : ℚ) / 2 ^ 51, (6004804084622823 : ℚ) / 2 ^ 55, (6004799503790659 : ℚ) / 2 ^ 57] ∧
    polyeval64 m x [(1 : ℚ), (9007199254738807 : ℚ) / 2 ^ 53, (1125899906843079 : ℚ) / 2 ^ 51, (6004804084622823 : ℚ) / 2 ^ 55, (6004799503790659 : ℚ) / 2 ^ 57] ≤ ((14474011586023658246747295796670068358597624506542242074862576129955673862723 : ℚ) / 2 ^ 253) := by
  simp only [polyeval64]
  have hm1 := mul_bounds_pos x ((6004799503790659 : ℚ) / 2 ^ 57) (((8388609 : ℚ) / 2 ^ 49)) (((16777215 : ℚ) / 2 ^ 49)) ((6004799503790659 : ℚ) / 2 ^ 57) ((6004799503790659 : ℚ) / 2 ^ 57)
    hx1 hx2 (by norm_num) (le_refl _) (le_refl _) (by norm_num)
  have e1 : ((50371915160693822648899 : ℚ) / 2 ^ 106) ≤ round64v m (x * ((6004799503790659 : ℚ) / 2 ^ 57)) ∧
      round64v m (x * ((6004799503790659 : ℚ) / 2 ^ 57)) ≤ ((100743812306989234589117 : ℚ) / 2 ^ 106) := by
    have h := round64_enclose m (x * ((6004799503790659 : ℚ) / 2 ^ 57)) ((((8388609 : ℚ) / 2 ^ 49)) * ((6004799503790659 : ℚ) / 2 ^ 57)) ((((16777215 : ℚ) / 2 ^ 49)) * ((6004799503790659 : ℚ) / 2 ^ 57)) (-29) hm1.1 hm1.2
      (ne_of_gt (lt_of_lt_of_le (by norm_num) hm1.1))
      (abs_le.mpr ⟨le_trans (by norm_num) hm1.1, le_trans hm1.2 (by norm_num)⟩)
      (by norm_num)
    exact ⟨le_trans (by norm_num) h.1, le_trans h.2 (by norm_num)⟩
  have e2 : ((13521616769341999653405914493507 : ℚ) / 2 ^ 106) ≤ round64v m (round64v m (x * ((6004799503790659 : ℚ) / 2 ^ 57)) + (6004804084622823 : ℚ) / 2 ^ 55) ∧
      round64v m (round64v m (x * ((6004799503790659 : ℚ) / 2 ^ 57)) + (6004804084622823 : ℚ) / 2 ^ 55) ≤ ((13521616819713905806900581174717 : ℚ) / 2 ^ 106) := by
    have hlo : (((50371915160693822648899 : ℚ) / 2 ^ 106)) + ((6004804084622823 : ℚ) / 2 ^ 55) ≤ round64v m (x * ((6004799503790659 : ℚ) / 2 ^ 57)) + (6004804084622823 : ℚ) / 2 ^ 55 := by linarith [e1.1]
    have hhi : round64v m (x * ((6004799503790659 : ℚ) / 2 ^ 57)) + (6004804084622823 : ℚ) / 2 ^ 55 ≤ (((100743812306989234589117 : ℚ) / 2 ^ 106)) + ((6004804084622823 : ℚ) / 2 ^ 55) := by linarith [e1.2]
    have h := round64_enclose m (round64v m (x * ((6004799503790659 : ℚ) / 2 ^ 57)) + (6004804084622823 : ℚ) / 2 ^ 55) ((((50371915160693822648899 : ℚ) / 2 ^ 106)) + ((6004804084622823 : ℚ) / 2 ^ 55)) ((((100743812306989234589117 : ℚ) / 2 ^ 106)) + ((6004804084622823 : ℚ) / 2 ^ 55)) (-2) hlo hhi
      (ne_of_gt (by linarith [e1.1]))
      (abs_le.mpr ⟨le_trans (by norm_num) hlo, le_trans hhi (by norm_num)⟩)
      (by norm_num)
    exact ⟨le_trans (by norm_num) h.1, le_trans h.2 (by norm_num)⟩
  have hm3 := mul_bounds_pos x ((round64v m (round64v m (x * ((6004799503790659 : ℚ) / 2 ^ 57)) + (6004804084622823 : ℚ) / 2 ^ 55))) (((8388609 : ℚ) / 2 ^ 49)) (((16777215 : ℚ) / 2 ^ 49)) (((13521616769341999653405914493507 : ℚ) / 2 ^ 106)) (((13521616819713905806900581174717 : ℚ) / 2 ^ 106))
    hx1 hx2 (by norm_num) e2.1 e2.2 (by norm_num)
  have e3 : ((113427556125853146812694009059139842627 : ℚ) / 2 ^ 155) ≤ round64v m (x * (round64v m (round64v m (x * ((6004799503790659 : ℚ) / 2 ^ 57)) + (6004804084622823 : ℚ) / 2 ^ 55))) ∧
      round64v m (x * (round64v m (round64v m (x * ((6004799503790659 : ℚ) / 2 ^ 57)) + (6004804084622823 : ℚ) / 2 ^ 55))) ≤ ((226855072531956511769983259907503092291 : ℚ) / 2 ^ 155) := by
    have h := round64_enclose m (x * (round64v m (round64v m (x * ((6004799503790659 : ℚ) / 2 ^ 57)) + (6004804084622823 : ℚ) / 2 ^ 55))) ((((8388609 : ℚ) / 2 ^ 49)) * (((13521616769341999653405914493507 : ℚ) / 2 ^ 106))) ((((16777215 : ℚ) / 2 ^ 49)) * (((13521616819713905806900581174717 : ℚ) / 2 ^ 106))) (-27) hm3.1 hm3.2
      (ne_of_gt (lt_of_lt_of_le (by norm_num) hm3.1))
      (abs_le.mpr ⟨le_trans (by norm_num) hm3.1, le_trans hm3.2 (by norm_num)⟩)
      (by norm_num)
    exact ⟨le_trans (by norm_num) h.1, le_trans h.2 (by norm_num)⟩
  have e4 : ((22835963196732132577950582008093615266973282883 : ℚ) / 2 ^ 155) ≤ round64v m (round64v m (x * (round64v m (round64v m (x * ((6004799503790659 : ℚ) / 2 ^ 57)) + (6004804084622823 : ℚ) / 2 ^ 55))) + (1125899906843079 : ℚ) / 2 ^ 51) ∧
      round64v m (round64v m (x * (round64v m (round64v m (x * ((6004799503790659 : ℚ) / 2 ^ 57)) + (6004804084622823 : ℚ) / 2 ^ 55))) + (1125899906843079 : ℚ) / 2 ^ 51) ≤ ((22835963310159669266463550617053290062587818563 : ℚ) / 2 ^ 155) := by
    have hlo : (((113427556125853146812694009059139842627 : ℚ) / 2 ^ 155)) + ((1125899906843079 : ℚ) / 2 ^ 51) ≤ round64v m (x * (round64v m (round64v m (x * ((6004799503790659 : ℚ) / 2 ^ 57)) + (6004804084622823 : ℚ) / 2 ^ 55))) + (1125899906843079 : ℚ) / 2 ^ 51 := by linarith [e3.1]
    have hhi : round64v m (x * (round64v m (round64v m (x * ((6004799503790659 : ℚ) / 2 ^ 57)) + (6004804084622823 : ℚ) / 2 ^ 55))) + (1125899906843079 : ℚ) / 2 ^ 51 ≤ (((226855072531956511769983259907503092291 : ℚ) / 2 ^ 155)) + ((1125899906843079 : ℚ) / 2 ^ 51) := by linarith [e3.2]
    have h := round64_enclose m (round64v m (x * (round64v m (round64v m (x * ((6004799503790659 : ℚ) / 2 ^ 57)) + (6004804084622823 : ℚ) / 2 ^ 55))) + (1125899906843079 : ℚ) / 2 ^ 51) ((((113427556125853146812694009059139842627 : ℚ) / 2 ^ 155)) + ((1125899906843079 : ℚ) / 2 ^ 51)) ((((226855072531956511769983259907503092291 : ℚ) / 2 ^ 155)) + ((1125899906843079 : ℚ) / 2 ^ 51)) (0) hlo hhi
      (ne_of_gt (by linarith [e3.1]))
      (abs_le.mpr ⟨le_trans (by norm_num) hlo, le_trans hhi (by norm_num)⟩)
      (by norm_num)
    exact ⟨le_trans (by norm_num) h.1, le_trans h.2 (by norm_num)⟩
  have hm5 := mul_bounds_pos x ((round64v m (round64v m (x * (round64v m (round64v m (x * ((6004799503790659 : ℚ) / 2 ^ 57)) + (6004804084622823 : ℚ) / 2 ^ 55))) + (1125899906843079 : ℚ) / 2 ^ 51))) (((8388609 : ℚ) / 2 ^ 49)) (((16777215 : ℚ) / 2 ^ 49)) (((22835963196732132577950582008093615266973282883 : ℚ) / 2 ^ 155)) (((22835963310159669266463550617053290062587818563 : ℚ) / 2 ^ 155))
    hx1 hx2 (by norm_num) e4.1 e4.2 (by norm_num)
  have e5 : ((191561966395775852861997723553716308027417625609826883 : ℚ) / 2 ^ 204) ≤ round64v m (x * (round64v m (round64v m (x * (round64v m (round64v m (x * ((6004799503790659 : ℚ) / 2 ^ 57)) + (6004804084622823 : ℚ) / 2 ^ 55))) + (1125899906843079 : ℚ) / 2 ^ 51))) ∧
      round64v m (x * (round64v m (round64v m (x * (round64v m (round64v m (x * ((6004799503790659 : ℚ) / 2 ^ 57)) + (6004804084622823 : ℚ) / 2 ^ 55))) + (1125899906843079 : ℚ) / 2 ^ 51))) ≤ ((383123866186660540682943008600301579681051146354494909 : ℚ) / 2 ^ 204) := by
    have h := round64_enclose m (x * (round64v m (round64v m (x * (round64v m (round64v m (x * ((6004799503790659 : ℚ) / 2 ^ 57)) + (6004804084622823 : ℚ) / 2 ^ 55))) + (1125899906843079 : ℚ) / 2 ^ 51))) ((((8388609 : ℚ) / 2 ^ 49)) * (((22835963196732132577950582008093615266973282883 : ℚ) / 2 ^ 155))) ((((16777215 : ℚ) / 2 ^ 49)) * (((22835963310159669266463550617053290062587818563 : ℚ) / 2 ^ 155))) (-26) hm5.1 hm5.2
      (ne_of_gt (lt_of_lt_of_le (by norm_num) hm5.1))
      (abs_le.mpr ⟨le_trans (by norm_num) hm5.1, le_trans hm5.2 (by norm_num)⟩)
      (by norm_num)
    exact ⟨le_trans (by norm_num) h.1, le_trans h.2 (by norm_num)⟩
  have e6 : ((25711008899699562314048579647097052018097306038235227309929027 : ℚ) / 2 ^ 204) ≤ round64v m (round64v m (x * (round64v m (round64v m (x * (round64v m (round64v m (x * ((6004799503790659 : ℚ) / 2 ^ 57)) + (6004804084622823 : ℚ) / 2 ^ 55))) + (1125899906843079 : ℚ) / 2 ^ 51))) + (9007199254738807 : ℚ) / 2 ^ 53) ∧
      round64v m (round64v m (x * (round64v m (round64v m (x * (round64v m (round64v m (x * ((6004799503790659 : ℚ) / 2 ^ 57)) + (6004804084622823 : ℚ) / 2 ^ 55))) + (1125899906843079 : ℚ) / 2 ^ 51))) + (9007199254738807 : ℚ) / 2 ^ 53) ≤ ((25711009091261484940896350763400433997258088883790930178543037 : ℚ) / 2 ^ 204) := by
    have hlo : (((191561966395775852861997723553716308027417625609826883 : ℚ) / 2 ^ 204)) + ((9007199254738807 : ℚ) / 2 ^ 53) ≤ round64v m (x * (round64v m (round64v m (x * (round64v m (round64v m (x * ((6004799503790659 : ℚ) / 2 ^ 57)) + (6004804084622823 : ℚ) / 2 ^ 55))) + (1125899906843079 : ℚ) / 2 ^ 51))) + (9007199254738807 : ℚ) / 2 ^ 53 := by linarith [e5.1]
    have hhi : round64v m (x * (round64v m (round64v m (x * (round64v m (round64v m (x * ((6004799503790659 : ℚ) / 2 ^ 57)) + (6004804084622823 : ℚ) / 2 ^ 55))) + (1125899906843079 : ℚ) / 2 ^ 51))) + (9007199254738807 : ℚ) / 2 ^ 53 ≤ (((383123866186660540682943008600301579681051146354494909 : ℚ) / 2 ^ 204)) + ((9007199254738807 : ℚ) / 2 ^ 53) := by linarith [e5.2]
    have h := round64_enclose m (round64v m (x * (round64v m (round64v m (x * (round64v m (round64v m (x * ((6004799503790659 : ℚ) / 2 ^ 57)) + (6004804084622823 : ℚ) / 2 ^ 55))) + (1125899906843079 : ℚ) / 2 ^ 51))) + (9007199254738807 : ℚ) / 2 ^ 53) ((((191561966395775852861997723553716308027417625609826883 : ℚ) / 2 ^ 204)) + ((9007199254738807 : ℚ) / 2 ^ 53)) ((((383123866186660540682943008600301579681051146354494909 : ℚ) / 2 ^ 204)) + ((9007199254738807 : ℚ) / 2 ^ 53)) (1) hlo hhi
      (ne_of_gt (by linarith [e5.1]))
      (abs_le.mpr ⟨le_trans (by norm_num) hlo, le_trans hhi (by norm_num)⟩)
      (by norm_num)
    exact ⟨le_trans (by norm_num) h.1, le_trans h.2 (by norm_num)⟩
  have hm7 := mul_bounds_pos x ((round64v m (round64v m (x * (round64v m (round64v m (x * (round64v m (round64v m (x * ((6004799503790659 : ℚ) / 2 ^ 57)) + (6004804084622823 : ℚ) / 2 ^ 55))) + (1125899906843079 : ℚ) / 2 ^ 51))) + (9007199254738807 : ℚ) / 2 ^ 53))) (((8388609 : ℚ) / 2 ^ 49)) (((16777215 : ℚ) / 2 ^ 49)) (((25711008899699562314048579647097052018097306038235227309929027 : ℚ) / 2 ^ 204)) (((25711009091261484940896350763400433997258088883790930178543037 : ℚ) / 2 ^ 204))
    hx1 hx2 (by norm_num) e6.1 e6.2 (by norm_num)
  have e7 : ((215679600655099654161746133428747859639100830519446419586726152303171 : ℚ) / 2 ^ 253) ≤ round64v m (x * (round64v m (round64v m (x * (round64v m (round64v m (x * (round64v m (round64v m (x * ((6004799503790659 : ℚ) / 2 ^ 57)) + (6004804084622823 : ℚ) / 2 ^ 55))) + (1125899906843079 : ℚ) / 2 ^ 51))) + (9007199254738807 : ℚ) / 2 ^ 53))) ∧
      round64v m (x * (round64v m (round64v m (x * (round64v m (round64v m (x * (round64v m (round64v m (x * ((6004799503790659 : ℚ) / 2 ^ 57)) + (6004804084622823 : ℚ) / 2 ^ 55))) + (1125899906843079 : ℚ) / 2 ^ 51))) + (9007199254738807 : ℚ) / 2 ^ 53))) ≤ ((431359127391048745634622977709090507058686761481118402997795191452227 : ℚ) / 2 ^ 253) := by
    have h := round64_enclose m (x * (round64v m (round64v m (x * (round64v m (round64v m (x * (round64v m (round64v m (x * ((6004799503790659 : ℚ) / 2 ^ 57)) + (6004804084622823 : ℚ) / 2 ^ 55))) + (1125899906843079 : ℚ) / 2 ^ 51))) + (9007199254738807 : ℚ) / 2 ^ 53))) ((((8388609 : ℚ) / 2 ^ 49)) * (((25711008899699562314048579647097052018097306038235227309929027 : ℚ) / 2 ^ 204))) ((((16777215 : ℚ) / 2 ^ 49)) * (((25711009091261484940896350763400433997258088883790930178543037 : ℚ) / 2 ^ 204))) (-24) hm7.1 hm7.2
      (ne_of_gt (lt_of_lt_of_le (by norm_num) hm7.1))
      (abs_le.mpr ⟨le_trans (by norm_num) hm7.1, le_trans hm7.2 (by norm_num)⟩)
      (by norm_num)
    exact ⟨le_trans (by norm_num) h.1, le_trans h.2 (by norm_num)⟩
  have e8 : ((14474011370344118655293850251871019742558238357655490935566642456543952302659 : ℚ) / 2 ^ 253) ≤ round64v m (round64v m (x * (round64v m (round64v m (x * (round64v m (round64v m (x * (round64v m (round64v m (x * ((6004799503790659 : ℚ) / 2 ^ 57)) + (6004804084622823 : ℚ) / 2 ^ 55))) + (1125899906843079 : ℚ) / 2 ^ 51))) + (9007199254738807 : ℚ) / 2 ^ 53))) + 1) ∧
      round64v m (round64v m (x * (round64v m (round64v m (x * (round64v m (round64v m (x * (round64v m (round64v m (x * ((6004799503790659 : ℚ) / 2 ^ 57)) + (6004804084622823 : ℚ) / 2 ^ 55))) + (1125899906843079 : ℚ) / 2 ^ 51))) + (9007199254738807 : ℚ) / 2 ^ 53))) + 1) ≤ ((14474011586023658246747295796670068358597624506542242074862576129955673862723 : ℚ) / 2 ^ 253) := by
    have hlo : (((215679600655099654161746133428747859639100830519446419586726152303171 : ℚ) / 2 ^ 253)) + (1) ≤ round64v m (x * (round64v m (round64v m (x * (round64v m (round64v m (x * (round64v m (round64v m (x * ((6004799503790659 : ℚ) / 2 ^ 57)) + (6004804084622823 : ℚ) / 2 ^ 55))) + (1125899906843079 : ℚ) / 2 ^ 51))) + (9007199254738807 : ℚ) / 2 ^ 53))) + 1 := by linarith [e7.1]
    have hhi : round64v m (x * (round64v m (round64v m (x * (round64v m (round64v m (x * (round64v m (round64v m (x * ((6004799503790659 : ℚ) / 2 ^ 57)) + (6004804084622823 : ℚ) / 2 ^ 55))) + (1125899906843079 : ℚ) / 2 ^ 51))) + (9007199254738807 : ℚ) / 2 ^ 53))) + 1 ≤ (((431359127391048745634622977709090507058686761481118402997795191452227 : ℚ) / 2 ^ 253)) + (1) := by linarith [e7.2]
    have h := round64_enclose m (round64v m (x * (round64v m (round64v m (x * (round64v m (round64v m (x * (round64v m (round64v m (x * ((6004799503790659 : ℚ) / 2 ^ 57)) + (6004804084622823 : ℚ) / 2 ^ 55))) + (1125899906843079 : ℚ) / 2 ^ 51))) + (9007199254738807 : ℚ) / 2 ^ 53))) + 1) ((((215679600655099654161746133428747859639100830519446419586726152303171 : ℚ) / 2 ^ 253)) + (1)) ((((431359127391048745634622977709090507058686761481118402997795191452227 : ℚ) / 2 ^ 253)) + (1)) (1) hlo hhi
      (ne_of_gt (by linarith [e7.1]))
      (abs_le.mpr ⟨le_trans (by norm_num) hlo, le_trans hhi (by norm_num)⟩)
      (by norm_num)
    exact ⟨le_trans (by norm_num) h.1, le_trans h.2 (by norm_num)⟩
  exact ⟨e8.1, e8.2⟩

/-- Interval enclosure of the rounded Horner evaluation of the `expf`
degree-4 polynomial over the negative annulus `(-2^-25, -2^-26)`. -/
theorem expf_poly_bounds_neg (m : RMode) (x : ℚ)
    (hx1 : (-(16777215 : ℚ) / 2 ^ 49) ≤ x) (hx2 : x ≤ (-(8388609 : ℚ) / 2 ^ 49)) :
    ((14474010723305400250773269035483116125879190655203362055461593638235279389251 : ℚ) / 2 ^ 253) ≤ polyeval64 m x [(1 : ℚ), (9007199254738807 : ℚ) / 2 ^ 53, (1125899906843079 : ℚ) / 2 ^ 51, (6004804084622823 : ℚ) / 2 ^ 55, (6004799503790659 : ℚ) / 2 ^ 57] ∧
    polyeval64 m x [(1 : ℚ), (9007199254738807 : ℚ) / 2 ^ 53, (1125899906843079 : ℚ) / 2 ^ 51, (6004804084622823 : ℚ) / 2 ^ 55, (6004799503790659 : ℚ) / 2 ^ 57] ≤ ((14474010938984935021413547592803604649457304830604875720838651159883601080899 : ℚ) / 2 ^ 253) := by
  simp only [polyeval64]
  have hm1 := mul_bounds_neg x ((6004799503790659 : ℚ) / 2 ^ 57) ((-(16777215 : ℚ) / 2 ^ 49)) ((-(8388609 : ℚ) / 2 ^ 49)) ((6004799503790659 : ℚ) / 2 ^ 57) ((6004799503790659 : ℚ) / 2 ^ 57)
    hx1 hx2 (by norm_num) (le_refl _) (le_refl _) (by norm_num)
  have e1 : (-(100743812306989234589117 : ℚ) / 2 ^ 106) ≤ round64v m (x * ((6004799503790659 : ℚ) / 2 ^ 57)) ∧
      round64v m (x * ((6004799503790659 : ℚ) / 2 ^ 57)) ≤ (-(50371915160693822648899 : ℚ) / 2 ^ 106) := by
    have h := round64_enclose m (x * ((6004799503790659 : ℚ) / 2 ^ 57)) (((-(16777215 : ℚ) / 2 ^ 49)) * ((6004799503790659 : ℚ) / 2 ^ 57)) (((-(8388609 : ℚ) / 2 ^ 49)) * ((6004799503790659 : ℚ) / 2 ^ 57)) (-29) hm1.1 hm1.2
      (ne_of_lt (lt_of_le_of_lt hm1.2 (by norm_num)))
      (abs_le.mpr ⟨le_trans (by norm_num) hm1.1, le_trans hm1.2 (by norm_num)⟩)
      (by norm_num)
    exact ⟨le_trans (by norm_num) h.1, le_trans h.2 (by norm_num)⟩
  have e2 : ((13521616618226272185722857255491 : ℚ) / 2 ^ 106) ≤ round64v m (round64v m (x * ((6004799503790659 : ℚ) / 2 ^ 57)) + (6004804084622823 : ℚ) / 2 ^ 55) ∧
      round64v m (round64v m (x * ((6004799503790659 : ℚ) / 2 ^ 57)) + (6004804084622823 : ℚ) / 2 ^ 55) ≤ ((13521616668598178339217523936701 : ℚ) / 2 ^ 106) := by
    have hlo : ((-(100743812306989234589117 : ℚ) / 2 ^ 106)) + ((6004804084622823 : ℚ) / 2 ^ 55) ≤ round64v m (x * ((6004799503790659 : ℚ) / 2 ^ 57)) + (6004804084622823 : ℚ) / 2 ^ 55 := by linarith [e1.1]
    have hhi : round64v m (x * ((6004799503790659 : ℚ) / 2 ^ 57)) + (6004804084622823 : ℚ) / 2 ^ 55 ≤ ((-(50371915160693822648899 : ℚ) / 2 ^ 106)) + ((6004804084622823 : ℚ) / 2 ^ 55) := by linarith [e1.2]
    have h := round64_enclose m (round64v m (x * ((6004799503790659 : ℚ) / 2 ^ 57)) + (6004804084622823 : ℚ) / 2 ^ 55) (((-(100743812306989234589117 : ℚ) / 2 ^ 106)) + ((6004804084622823 : ℚ) / 2 ^ 55)) (((-(50371915160693822648899 : ℚ) / 2 ^ 106)) + ((6004804084622823 : ℚ) / 2 ^ 55)) (-2) hlo hhi
      (ne_of_gt (by linarith [e1.1]))
      (abs_le.mpr ⟨le_trans (by norm_num) hlo, le_trans hhi (by norm_num)⟩)
      (by norm_num)
    exact ⟨le_trans (by norm_num) h.1, le_trans h.2 (by norm_num)⟩
  have hm3 := mul_bounds_neg x ((round64v m (round64v m (x * ((6004799503790659 : ℚ) / 2 ^ 57)) + (6004804084622823 : ℚ) / 2 ^ 55))) ((-(16777215 : ℚ) / 2 ^ 49)) ((-(8388609 : ℚ) / 2 ^ 49)) (((13521616618226272185722857255491 : ℚ) / 2 ^ 106)) (((13521616668598178339217523936701 : ℚ) / 2 ^ 106))
    hx1 hx2 (by norm_num) e2.1 e2.2 (by norm_num)
  have e3 : (-(226855069996655462163259056768002486851 : ℚ) / 2 ^ 155) ≤ round64v m (x * (round64v m (round64v m (x * ((6004799503790659 : ℚ) / 2 ^ 57)) + (6004804084622823 : ℚ) / 2 ^ 55))) ∧
      round64v m (x * (round64v m (round64v m (x * ((6004799503790659 : ℚ) / 2 ^ 57)) + (6004804084622823 : ℚ) / 2 ^ 55))) ≤ (-(113427554858202395335740705964803682883 : ℚ) / 2 ^ 155) := by
    have h := round64_enclose m (x * (round64v m (round64v m (x * ((6004799503790659 : ℚ) / 2 ^ 57)) + (6004804084622823 : ℚ) / 2 ^ 55))) (((-(16777215 : ℚ) / 2 ^ 49)) * (((13521616668598178339217523936701 : ℚ) / 2 ^ 106))) (((-(8388609 : ℚ) / 2 ^ 49)) * (((13521616618226272185722857255491 : ℚ) / 2 ^ 106))) (-27) hm3.1 hm3.2
      (ne_of_lt (lt_of_le_of_lt hm3.2 (by norm_num)))
      (abs_le.mpr ⟨le_trans (by norm_num) hm3.1, le_trans hm3.2 (by norm_num)⟩)
      (by norm_num)
    exact ⟨le_trans (by norm_num) h.1, le_trans h.2 (by norm_num)⟩
  have e4 : ((22835962856449506455441973032140549439830953405 : ℚ) / 2 ^ 155) ≤ round64v m (round64v m (x * (round64v m (round64v m (x * ((6004799503790659 : ℚ) / 2 ^ 57)) + (6004804084622823 : ℚ) / 2 ^ 55))) + (1125899906843079 : ℚ) / 2 ^ 51) ∧
      round64v m (round64v m (x * (round64v m (round64v m (x * ((6004799503790659 : ℚ) / 2 ^ 57)) + (6004804084622823 : ℚ) / 2 ^ 55))) + (1125899906843079 : ℚ) / 2 ^ 51) ≤ ((22835962969877041876304643511329324190281043389 : ℚ) / 2 ^ 155) := by
    have hlo : ((-(226855069996655462163259056768002486851 : ℚ) / 2 ^ 155)) + ((1125899906843079 : ℚ) / 2 ^ 51) ≤ round64v m (x * (round64v m (round64v m (x * ((6004799503790659 : ℚ) / 2 ^ 57)) + (6004804084622823 : ℚ) / 2 ^ 55))) + (1125899906843079 : ℚ) / 2 ^ 51 := by linarith [e3.1]
    have hhi : round64v m (x * (round64v m (round64v m (x * ((6004799503790659 : ℚ) / 2 ^ 57)) + (6004804084622823 : ℚ) / 2 ^ 55))) + (1125899906843079 : ℚ) / 2 ^ 51 ≤ ((-(113427554858202395335740705964803682883 : ℚ) / 2 ^ 155)) + ((1125899906843079 : ℚ) / 2 ^ 51) := by linarith [e3.2]
    have h := round64_enclose m (round64v m (x * (round64v m (round64v m (x * ((6004799503790659 : ℚ) / 2 ^ 57)) + (6004804084622823 : ℚ) / 2 ^ 55))) + (1125899906843079 : ℚ) / 2 ^ 51) (((-(226855069996655462163259056768002486851 : ℚ) / 2 ^ 155)) + ((1125899906843079 : ℚ) / 2 ^ 51)) (((-(113427554858202395335740705964803682883 : ℚ) / 2 ^ 155)) + ((1125899906843079 : ℚ) / 2 ^ 51)) (0) hlo hhi
      (ne_of_gt (by linarith [e3.1]))
      (abs_le.mpr ⟨le_trans (by norm_num) hlo, le_trans hhi (by norm_num)⟩)
      (by norm_num)
    exact ⟨le_trans (by norm_num) h.1, le_trans h.2 (by norm_num)⟩
  have hm5 := mul_bounds_neg x ((round64v m (round64v m (x * (round64v m (round64v m (x * ((6004799503790659 : ℚ) / 2 ^ 57)) + (6004804084622823 : ℚ) / 2 ^ 55))) + (1125899906843079 : ℚ) / 2 ^ 51))) ((-(16777215 : ℚ) / 2 ^ 49)) ((-(8388609 : ℚ) / 2 ^ 49)) (((22835962856449506455441973032140549439830953405 : ℚ) / 2 ^ 155)) (((22835962969877041876304643511329324190281043389 : ℚ) / 2 ^ 155))
    hx1 hx2 (by norm_num) e4.1 e4.2 (by norm_num)
  have e5 : (-(383123860477665740193358139922542873588697833303634499 : ℚ) / 2 ^ 204) ≤ round64v m (x * (round64v m (round64v m (x * (round64v m (round64v m (x * ((6004799503790659 : ℚ) / 2 ^ 57)) + (6004804084622823 : ℚ) / 2 ^ 55))) + (1125899906843079 : ℚ) / 2 ^ 51))) ∧
      round64v m (x * (round64v m (round64v m (x * (round64v m (round64v m (x * ((6004799503790659 : ℚ) / 2 ^ 57)) + (6004804084622823 : ℚ) / 2 ^ 55))) + (1125899906843079 : ℚ) / 2 ^ 51))) ≤ (-(191561963541277952827086903720555636452259036269710781 : ℚ) / 2 ^ 204) := by
    have h := round64_enclose m (x * (round64v m (round64v m (x * (round64v m (round64v m (x * ((6004799503790659 : ℚ) / 2 ^ 57)) + (6004804084622823 : ℚ) / 2 ^ 55))) + (1125899906843079 : ℚ) / 2 ^ 51))) (((-(16777215 : ℚ) / 2 ^ 49)) * (((22835962969877041876304643511329324190281043389 : ℚ) / 2 ^ 155))) (((-(8388609 : ℚ) / 2 ^ 49)) * (((22835962856449506455441973032140549439830953405 : ℚ) / 2 ^ 155))) (-26) hm5.1 hm5.2
      (ne_of_lt (lt_of_le_of_lt hm5.2 (by norm_num)))
      (abs_le.mpr ⟨le_trans (by norm_num) hm5.1, le_trans hm5.2 (by norm_num)⟩)
      (by norm_num)
    exact ⟨le_trans (by norm_num) h.1, le_trans h.2 (by norm_num)⟩
  have e6 : ((25711008325013741149597757415580712774982002220100313927454141 : ℚ) / 2 ^ 204) ≤ round64v m (round64v m (x * (round64v m (round64v m (x * (round64v m (round64v m (x * ((6004799503790659 : ℚ) / 2 ^ 57)) + (6004804084622823 : ℚ) / 2 ^ 55))) + (1125899906843079 : ℚ) / 2 ^ 51))) + (9007199254738807 : ℚ) / 2 ^ 53) ∧
      round64v m (round64v m (x * (round64v m (round64v m (x * (round64v m (round64v m (x * ((6004799503790659 : ℚ) / 2 ^ 57)) + (6004804084622823 : ℚ) / 2 ^ 55))) + (1125899906843079 : ℚ) / 2 ^ 51))) + (9007199254738807 : ℚ) / 2 ^ 53) ≤ ((25711008516575649503967086429530997443256994952500202023350851 : ℚ) / 2 ^ 204) := by
    have hlo : ((-(383123860477665740193358139922542873588697833303634499 : ℚ) / 2 ^ 204)) + ((9007199254738807 : ℚ) / 2 ^ 53) ≤ round64v m (x * (round64v m (round64v m (x * (round64v m (round64v m (x * ((6004799503790659 : ℚ) / 2 ^ 57)) + (6004804084622823 : ℚ) / 2 ^ 55))) + (1125899906843079 : ℚ) / 2 ^ 51))) + (9007199254738807 : ℚ) / 2 ^ 53 := by linarith [e5.1]
    have hhi : round64v m (x * (round64v m (round64v m (x * (round64v m (round64v m (x * ((6004799503790659 : ℚ) / 2 ^ 57)) + (6004804084622823 : ℚ) / 2 ^ 55))) + (1125899906843079 : ℚ) / 2 ^ 51))) + (9007199254738807 : ℚ) / 2 ^ 53 ≤ ((-(191561963541277952827086903720555636452259036269710781 : ℚ) / 2 ^ 204)) + ((9007199254738807 : ℚ) / 2 ^ 53) := by linarith [e5.2]
    have h := round64_enclose m (round64v m (x * (round64v m (round64v m (x * (round64v m (round64v m (x * ((6004799503790659 : ℚ) / 2 ^ 57)) + (6004804084622823 : ℚ) / 2 ^ 55))) + (1125899906843079 : ℚ) / 2 ^ 51))) + (9007199254738807 : ℚ) / 2 ^ 53) (((-(383123860477665740193358139922542873588697833303634499 : ℚ) / 2 ^ 204)) + ((9007199254738807 : ℚ) / 2 ^ 53)) (((-(191561963541277952827086903720555636452259036269710781 : ℚ) / 2 ^ 204)) + ((9007199254738807 : ℚ) / 2 ^ 53)) (0) hlo hhi
      (ne_of_gt (by linarith [e5.1]))
      (abs_le.mpr ⟨le_trans (by norm_num) hlo, le_trans hhi (by norm_num)⟩)
      (by norm_num)
    exact ⟨le_trans (by norm_num) h.1, le_trans h.2 (by norm_num)⟩
  have hm7 := mul_bounds_neg x ((round64v m (round64v m (x * (round64v m (round64v m (x * (round64v m (round64v m (x * ((6004799503790659 : ℚ) / 2 ^ 57)) + (6004804084622823 : ℚ) / 2 ^ 55))) + (1125899906843079 : ℚ) / 2 ^ 51))) + (9007199254738807 : ℚ) / 2 ^ 53))) ((-(16777215 : ℚ) / 2 ^ 49)) ((-(8388609 : ℚ) / 2 ^ 49)) (((25711008325013741149597757415580712774982002220100313927454141 : ℚ) / 2 ^ 204)) (((25711008516575649503967086429530997443256994952500202023350851 : ℚ) / 2 ^ 204))
    hx1 hx2 (by norm_num) e6.1 e6.2 (by norm_num)
  have e7 : (-(431359117749420927054641770187931188063351298360658629231582520610237 : ℚ) / 2 ^ 253) ≤ round64v m (x * (round64v m (round64v m (x * (round64v m (round64v m (x * (round64v m (round64v m (x * ((6004799503790659 : ℚ) / 2 ^ 57)) + (6004804084622823 : ℚ) / 2 ^ 55))) + (1125899906843079 : ℚ) / 2 ^ 51))) + (9007199254738807 : ℚ) / 2 ^ 53))) ∧
      round64v m (x * (round64v m (round64v m (x * (round64v m (round64v m (x * (round64v m (round64v m (x * ((6004799503790659 : ℚ) / 2 ^ 57)) + (6004804084622823 : ℚ) / 2 ^ 55))) + (1125899906843079 : ℚ) / 2 ^ 51))) + (9007199254738807 : ℚ) / 2 ^ 53))) ≤ (-(215679595834285002569243486000049812617250604872905521972276881329597 : ℚ) / 2 ^ 253) := by
    have h := round64_enclose m (x * (round64v m (round64v m (x * (round64v m (round64v m (x * (round64v m (round64v m (x * ((6004799503790659 : ℚ) / 2 ^ 57)) + (6004804084622823 : ℚ) / 2 ^ 55))) + (1125899906843079 : ℚ) / 2 ^ 51))) + (9007199254738807 : ℚ) / 2 ^ 53))) (((-(16777215 : ℚ) / 2 ^ 49)) * (((25711008516575649503967086429530997443256994952500202023350851 : ℚ) / 2 ^ 204))) (((-(8388609 : ℚ) / 2 ^ 49)) * (((25711008325013741149597757415580712774982002220100313927454141 : ℚ) / 2 ^ 204))) (-24) hm7.1 hm7.2
      (ne_of_lt (lt_of_le_of_lt hm7.2 (by norm_num)))
      (abs_le.mpr ⟨le_trans (by norm_num) hm7.1, le_trans hm7.2 (by norm_num)⟩)
      (by norm_num)
    exact ⟨le_trans (by norm_num) h.1, le_trans h.2 (by norm_num)⟩
  have e8 : ((14474010723305400250773269035483116125879190655203362055461593638235279389251 : ℚ) / 2 ^ 253) ≤ round64v m (round64v m (x * (round64v m (round64v m (x * (round64v m (round64v m (x * (round64v m (round64v m (x * ((6004799503790659 : ℚ) / 2 ^ 57)) + (6004804084622823 : ℚ) / 2 ^ 55))) + (1125899906843079 : ℚ) / 2 ^ 51))) + (9007199254738807 : ℚ) / 2 ^ 53))) + 1) ∧
      round64v m (round64v m (x * (round64v m (round64v m (x * (round64v m (round64v m (x * (round64v m (round64v m (x * ((6004799503790659 : ℚ) / 2 ^ 57)) + (6004804084622823 : ℚ) / 2 ^ 55))) + (1125899906843079 : ℚ) / 2 ^ 51))) + (9007199254738807 : ℚ) / 2 ^ 53))) + 1) ≤ ((14474010938984935021413547592803604649457304830604875720838651159883601080899 : ℚ) / 2 ^ 253) := by
    have hlo : ((-(431359117749420927054641770187931188063351298360658629231582520610237 : ℚ) / 2 ^ 253)) + (1) ≤ round64v m (x * (round64v m (round64v m (x * (round64v m (round64v m (x * (round64v m (round64v m (x * ((6004799503790659 : ℚ) / 2 ^ 57)) + (6004804084622823 : ℚ) / 2 ^ 55))) + (1125899906843079 : ℚ) / 2 ^ 51))) + (9007199254738807 : ℚ) / 2 ^ 53))) + 1 := by linarith [e7.1]
    have hhi : round64v m (x * (round64v m (round64v m (x * (round64v m (round64v m (x * (round64v m (round64v m (x * ((6004799503790659 : ℚ) / 2 ^ 57)) + (6004804084622823 : ℚ) / 2 ^ 55))) + (1125899906843079 : ℚ) / 2 ^ 51))) + (9007199254738807 : ℚ) / 2 ^ 53))) + 1 ≤ ((-(215679595834285002569243486000049812617250604872905521972276881329597 : ℚ) / 2 ^ 253)) + (1) := by linarith [e7.2]
    have h := round64_enclose m (round64v m (x * (round64v m (round64v m (x * (round64v m (round64v m (x * (round64v m (round64v m (x * ((6004799503790659 : ℚ) / 2 ^ 57)) + (6004804084622823 : ℚ) / 2 ^ 55))) + (1125899906843079 : ℚ) / 2 ^ 51))) + (9007199254738807 : ℚ) / 2 ^ 53))) + 1) (((-(431359117749420927054641770187931188063351298360658629231582520610237 : ℚ) / 2 ^ 253)) + (1)) (((-(215679595834285002569243486000049812617250604872905521972276881329597 : ℚ) / 2 ^ 253)) + (1)) (1) hlo hhi
      (ne_of_gt (by linarith [e7.1]))
      (abs_le.mpr ⟨le_trans (by norm_num) hlo, le_trans hhi (by norm_num)⟩)
      (by norm_num)
    exact ⟨le_trans (by norm_num) h.1, le_trans h.2 (by norm_num)⟩
  exact ⟨e8.1, e8.2⟩

set_option maxHeartbeats 2000000 in
/-- **C5.**  For every float `x` with `|x| < 2^-25` (bit patterns with
`x_abs < 0x33000000`; all such inputs are finite, so never NaN), `expf(x)`
returns exactly the float computed as `1.0f + x`, bit for bit, under every
rounding mode, without touching `errno`. -/
theorem claim_C5 (b : ℕ) (m : RMode) (hb : b < 2 ^ 32)
    (habs : b % 2 ^ 31 < 0x33000000) :
    expf b m = some ⟨fadd32 m 0x3f800000 b, none⟩ := by
  have hne : b ≠ 0xc236bd8c := by omega
  rcases le_or_lt (b % 2 ^ 31) 0x32800000 with htiny | hann
  · -- |x| ≤ 2^-26: the early-return branch `return 1.0f + x`.
    rw [expf, if_neg hne, if_pos (Or.inr htiny),
      if_pos (show b / 2 ^ 23 % 256 ≤ 101 by omega)]
  · -- 2^-26 < |x| < 2^-25: the general path still produces `1.0f + x`.
    have he : b / 2 ^ 23 % 256 = 100 + 1 := by omega
    have htv := toVal_normal b 100 he
    rw [show ((((100 : ℕ) : ℤ) + 1) - 150 : ℤ) = (-49 : ℤ) from by norm_num] at htv
    rcases lt_or_le b (2 ^ 31) with hs | hs
    · -- positive input
      rw [if_neg (not_le.mpr hs)] at htv
      have hb1 : ((8388609 : ℚ) / 2 ^ 49) = 8388609 * (1 / 562949953421312) := by
        norm_num
      have hb2 : ((16777215 : ℚ) / 2 ^ 49) = 16777215 * (1 / 562949953421312) := by
        norm_num
      have hx1 : ((8388609 : ℚ) / 2 ^ 49) ≤ toVal b := by
        rw [htv, show ((2 : ℚ) ^ (-49 : ℤ)) = 1 / 562949953421312 from by norm_num, hb1]
        exact mul_le_mul_of_nonneg_right
          (by exact_mod_cast (show (8388609 : ℤ) ≤ (2 : ℤ) ^ 23 + ((b % 2 ^ 23 : ℕ) : ℤ)
            by omega))
          (by norm_num)
      have hx2 : toVal b ≤ ((16777215 : ℚ) / 2 ^ 49) := by
        rw [htv, show ((2 : ℚ) ^ (-49 : ℤ)) = 1 / 562949953421312 from by norm_num, hb2]
        exact mul_le_mul_of_nonneg_right
          (by exact_mod_cast (show (2 : ℤ) ^ 23 + ((b % 2 ^ 23 : ℕ) : ℤ) ≤ (16777215 : ℤ)
            by omega))
          (by norm_num)
      have hA : round32v m (toVal b * 128) = toVal b * 128 := by
        apply fround_eq_self 24 (-149) (by norm_num) m
        refine ⟨(2 : ℤ) ^ 23 + (b % 2 ^ 23 : ℕ), -42, ?_, by omega, by norm_num⟩
        rw [htv, show ((2 : ℚ) ^ (-42 : ℤ)) = (2 : ℚ) ^ (-49 : ℤ) * 128 from by norm_num]
        ring
      have hx_exact : round32v m (toVal b) = toVal b := by
        apply fround_eq_self 24 (-149) (by norm_num) m
        exact ⟨(2 : ℤ) ^ 23 + (b % 2 ^ 23 : ℕ), -49, htv, by omega, by norm_num⟩
      have henc32 := round32_enclose m (toVal b * 128 + 1 / 2) (1 / 2) (51 / 100) 0
        (by linarith [hx1, hb1]) (by linarith [hx2, hb2])
        (ne_of_gt (by linarith [hx1, hb1]))
        (by
          rw [show ((2 : ℚ) ^ (0 : ℤ)) = 1 from by norm_num, abs_le]
          exact ⟨by linarith [hx1, hb1], by linarith [hx2, hb2]⟩)
        (by norm_num)
      rw [show ((2 : ℚ) ^ ((0 : ℤ) - 23)) = 1 / 8388608 from by norm_num] at henc32
      have hT2 : truncZ (round32v m (round32v m (toVal b * 128) +
          (if 2 ^ 31 ≤ b then -(1/2 : ℚ) else 1/2))) = 0 := by
        rw [if_neg (not_le.mpr hs), hA]
        exact truncZ_eq_zero _ (by linarith [henc32.1]) (by linarith [henc32.2])
      have hred : expf_general b m = some ⟨valToBits32 (round32v m (round64v m
          (round64v m ((1 : ℚ) * 1) *
            polyeval64 m (round32v m (toVal b - round32v m (round32v m ((0 : ℤ) : ℚ) * (1/128))))
              [(1 : ℚ), (9007199254738807 : ℚ) / 2 ^ 53, (1125899906843079 : ℚ) / 2 ^ 51, (6004804084622823 : ℚ) / 2 ^ 55, (6004799503790659 : ℚ) / 2 ^ 57]))), none⟩ := by
        delta expf_general
        simp only []
        rw [hT2]
        rfl
      rw [expf, if_neg hne, if_neg (by omega :
        ¬(0x42b20000 ≤ b % 2 ^ 31 ∨ b % 2 ^ 31 ≤ 0x32800000)), hred]
      have h0eq : round32v m (0 : ℚ) = 0 := fround_zero 24 (-149) m
      have h00 : round32v m (toVal b - round32v m (round32v m ((0 : ℤ) : ℚ) * (1/128)))
          = toVal b := by
        rw [show (((0 : ℤ)) : ℚ) = (0 : ℚ) from by norm_num, h0eq, zero_mul, h0eq,
          sub_zero]
        exact hx_exact
      rw [h00]
      have h11 : round64v m ((1 : ℚ) * 1) = 1 := by
        rw [mul_one]
        exact fround_eq_self 53 (-1074) (by norm_num) m 1
          ⟨1, 0, by norm_num, by norm_num, by norm_num⟩
      rw [h11, one_mul]
      have htv1 : toVal 0x3f800000 = 1 := by
        rw [toVal_normal 0x3f800000 126 (by norm_num)]
        norm_num
      rw [fadd32, htv1]
      have hch := expf_poly_bounds_pos m (toVal b) hx1 hx2
      have henc64 := round64_enclose m (polyeval64 m (toVal b)
          [(1 : ℚ), (9007199254738807 : ℚ) / 2 ^ 53, (1125899906843079 : ℚ) / 2 ^ 51, (6004804084622823 : ℚ) / 2 ^ 55, (6004799503790659 : ℚ) / 2 ^ 57])
        ((14474011370344118655293850251871019742558238357655490935566642456543952302659 : ℚ) / 2 ^ 253)
        ((14474011586023658246747295796670068358597624506542242074862576129955673862723 : ℚ) / 2 ^ 253)
        1 hch.1 hch.2
        (ne_of_gt (lt_of_lt_of_le (by norm_num) hch.1))
        (abs_le.mpr ⟨le_trans (by norm_num) hch.1, le_trans hch.2 (by norm_num)⟩)
        (by norm_num)
      rw [show ((2 : ℚ) ^ ((1 : ℤ) - 52)) = 1 / 2251799813685248 from by norm_num]
        at henc64
      have hVa : (1 : ℚ) < round64v m (polyeval64 m (toVal b)
          [(1 : ℚ), (9007199254738807 : ℚ) / 2 ^ 53, (1125899906843079 : ℚ) / 2 ^ 51, (6004804084622823 : ℚ) / 2 ^ 55, (6004799503790659 : ℚ) / 2 ^ 57]) := by
        have hlit : (1 : ℚ) <
            ((14474011370344118655293850251871019742558238357655490935566642456543952302659 : ℚ) / 2 ^ 253) - 1 / 2251799813685248 := by norm_num
        linarith [henc64.1]
      have hVb : round64v m (polyeval64 m (toVal b)
          [(1 : ℚ), (9007199254738807 : ℚ) / 2 ^ 53, (1125899906843079 : ℚ) / 2 ^ 51, (6004804084622823 : ℚ) / 2 ^ 55, (6004799503790659 : ℚ) / 2 ^ 57]) ≤ 1 + 1/16777216 := by
        have hlit : ((14474011586023658246747295796670068358597624506542242074862576129955673862723 : ℚ) / 2 ^ 253) + 1 / 2251799813685248 ≤ 1 + 1/16777216 := by norm_num
        linarith [henc64.2]
      have hV0 : (0 : ℚ) ≤ round64v m (polyeval64 m (toVal b)
          [(1 : ℚ), (9007199254738807 : ℚ) / 2 ^ 53, (1125899906843079 : ℚ) / 2 ^ 51, (6004804084622823 : ℚ) / 2 ^ 55, (6004799503790659 : ℚ) / 2 ^ 57]) := by
        linarith [hVa]
      have hWa : (1 : ℚ) < 1 + toVal b := by
        linarith [hx1, hb1]
      have hWb : 1 + toVal b ≤ 1 + 1/16777216 := by
        linarith [hx2, hb2]
      have hW0 : (0 : ℚ) ≤ 1 + toVal b := by linarith [hWa]
      rcases m with _ | _ | _ | _
      · rw [round32_nearest_one _ (by linarith [hVa]) hVb,
          round32_nearest_one _ (by linarith [hWa]) hWb]
      · rw [round32_up_above_one _ hVa (by linarith [hVb]),
          round32_up_above_one _ hWa (by linarith [hWb])]
      · rw [round32_down_above_one _ (le_of_lt hVa) (by linarith [hVb]),
          round32_down_above_one _ (le_of_lt hWa) (by linarith [hWb])]
      · rw [round32_zero_eq_down _ hV0, round32_zero_eq_down _ hW0,
          round32_down_above_one _ (le_of_lt hVa) (by linarith [hVb]),
          round32_down_above_one _ (le_of_lt hWa) (by linarith [hWb])]
    · -- negative input
      rw [if_pos hs] at htv
      have hb1 : (-(16777215 : ℚ) / 2 ^ 49) = -16777215 * (1 / 562949953421312) := by
        norm_num
      have hb2 : (-(8388609 : ℚ) / 2 ^ 49) = -8388609 * (1 / 562949953421312) := by
        norm_num
      have hx1 : (-(16777215 : ℚ) / 2 ^ 49) ≤ toVal b := by
        rw [htv, show ((2 : ℚ) ^ (-49 : ℤ)) = 1 / 562949953421312 from by norm_num, hb1]
        exact mul_le_mul_of_nonneg_right
          (by exact_mod_cast (show (-16777215 : ℤ) ≤ -((2 : ℤ) ^ 23 + ((b % 2 ^ 23 : ℕ) : ℤ))
            by omega))
          (by norm_num)
      have hx2 : toVal b ≤ (-(8388609 : ℚ) / 2 ^ 49) := by
        rw [htv, show ((2 : ℚ) ^ (-49 : ℤ)) = 1 / 562949953421312 from by norm_num, hb2]
        exact mul_le_mul_of_nonneg_right
          (by exact_mod_cast (show -((2 : ℤ) ^ 23 + ((b % 2 ^ 23 : ℕ) : ℤ)) ≤ (-8388609 : ℤ)
            by omega))
          (by norm_num)
      have hA : round32v m (toVal b * 128) = toVal b * 128 := by
        apply fround_eq_self 24 (-149) (by norm_num) m
        refine ⟨-((2 : ℤ) ^ 23 + (b % 2 ^ 23 : ℕ)), -42, ?_, by omega, by norm_num⟩
        rw [htv, show ((2 : ℚ) ^ (-42 : ℤ)) = (2 : ℚ) ^ (-49 : ℤ) * 128 from by norm_num]
        ring
      have hx_exact : round32v m (toVal b) = toVal b := by
        apply fround_eq_self 24 (-149) (by norm_num) m
        exact ⟨-((2 : ℤ) ^ 23 + (b % 2 ^ 23 : ℕ)), -49, htv, by omega, by norm_num⟩
      have henc32 := round32_enclose m (toVal b * 128 + -(1 / 2)) (-(51 / 100)) (-(1 / 2)) 0
        (by linarith [hx1, hb1]) (by linarith [hx2, hb2])
        (ne_of_lt (by linarith [hx2, hb2]))
        (by
          rw [show ((2 : ℚ) ^ (0 : ℤ)) = 1 from by norm_num, abs_le]
          exact ⟨by linarith [hx1, hb1], by linarith [hx2, hb2]⟩)
        (by norm_num)
      rw [show ((2 : ℚ) ^ ((0 : ℤ) - 23)) = 1 / 8388608 from by norm_num] at henc32
      have hT2 : truncZ (round32v m (round32v m (toVal b * 128) +
          (if 2 ^ 31 ≤ b then -(1/2 : ℚ) else 1/2))) = 0 := by
        rw [if_pos hs, hA]
        exact truncZ_eq_zero _ (by linarith [henc32.1]) (by linarith [henc32.2])
      have hred : expf_general b m = some ⟨valToBits32 (round32v m (round64v m
          (round64v m ((1 : ℚ) * 1) *
            polyeval64 m (round32v m (toVal b - round32v m (round32v m ((0 : ℤ) : ℚ) * (1/128))))
              [(1 : ℚ), (9007199254738807 : ℚ) / 2 ^ 53, (1125899906843079 : ℚ) / 2 ^ 51, (6004804084622823 : ℚ) / 2 ^ 55, (6004799503790659 : ℚ) / 2 ^ 57]))), none⟩ := by
        delta expf_general
        simp only []
        rw [hT2]
        rfl
      rw [expf, if_neg hne, if_neg (by omega :
        ¬(0x42b20000 ≤ b % 2 ^ 31 ∨ b % 2 ^ 31 ≤ 0x32800000)), hred]
      have h0eq : round32v m (0 : ℚ) = 0 := fround_zero 24 (-149) m
      have h00 : round32v m (toVal b - round32v m (round32v m ((0 : ℤ) : ℚ) * (1/128)))
          = toVal b := by
        rw [show (((0 : ℤ)) : ℚ) = (0 : ℚ) from by norm_num, h0eq, zero_mul, h0eq,
          sub_zero]
        exact hx_exact
      rw [h00]
      have h11 : round64v m ((1 : ℚ) * 1) = 1 := by
        rw [mul_one]
        exact fround_eq_self 53 (-1074) (by norm_num) m 1
          ⟨1, 0, by norm_num, by norm_num, by norm_num⟩
      rw [h11, one_mul]
      have htv1 : toVal 0x3f800000 = 1 := by
        rw [toVal_normal 0x3f800000 126 (by norm_num)]
        norm_num
      rw [fadd32, htv1]
      have hch := expf_poly_bounds_neg m (toVal b) hx1 hx2
      have henc64 := round64_enclose m (polyeval64 m (toVal b)
          [(1 : ℚ), (9007199254738807 : ℚ) / 2 ^ 53, (1125899906843079 : ℚ) / 2 ^ 51, (6004804084622823 : ℚ) / 2 ^ 55, (6004799503790659 : ℚ) / 2 ^ 57])
        ((14474010723305400250773269035483116125879190655203362055461593638235279389251 : ℚ) / 2 ^ 253)
        ((14474010938984935021413547592803604649457304830604875720838651159883601080899 : ℚ) / 2 ^ 253)
        1 hch.1 hch.2
        (ne_of_gt (lt_of_lt_of_le (by norm_num) hch.1))
        (abs_le.mpr ⟨le_trans (by norm_num) hch.1, le_trans hch.2 (by norm_num)⟩)
        (by norm_num)
      rw [show ((2 : ℚ) ^ ((1 : ℤ) - 52)) = 1 / 2251799813685248 from by norm_num]
        at henc64
      have hVa : 1 - 1/33554432 ≤ round64v m (polyeval64 m (toVal b)
          [(1 : ℚ), (9007199254738807 : ℚ) / 2 ^ 53, (1125899906843079 : ℚ) / 2 ^ 51, (6004804084622823 : ℚ) / 2 ^ 55, (6004799503790659 : ℚ) / 2 ^ 57]) := by
        have hlit : (1 - 1/33554432 : ℚ) ≤
            ((14474010723305400250773269035483116125879190655203362055461593638235279389251 : ℚ) / 2 ^ 253) - 1 / 2251799813685248 := by norm_num
        linarith [henc64.1]
      have hVb : round64v m (polyeval64 m (toVal b)
          [(1 : ℚ), (9007199254738807 : ℚ) / 2 ^ 53, (1125899906843079 : ℚ) / 2 ^ 51, (6004804084622823 : ℚ) / 2 ^ 55, (6004799503790659 : ℚ) / 2 ^ 57]) < 1 := by
        have hlit : ((14474010938984935021413547592803604649457304830604875720838651159883601080899 : ℚ) / 2 ^ 253) + 1 / 2251799813685248 < 1 := by norm_num
        linarith [henc64.2]
      have hVc : 1 - 1/16777216 < round64v m (polyeval64 m (toVal b)
          [(1 : ℚ), (9007199254738807 : ℚ) / 2 ^ 53, (1125899906843079 : ℚ) / 2 ^ 51, (6004804084622823 : ℚ) / 2 ^ 55, (6004799503790659 : ℚ) / 2 ^ 57]) := by
        have hlit : (1 - 1/16777216 : ℚ) <
            ((14474010723305400250773269035483116125879190655203362055461593638235279389251 : ℚ) / 2 ^ 253) - 1 / 2251799813685248 := by norm_num
        linarith [henc64.1]
      have hV0 : (0 : ℚ) ≤ round64v m (polyeval64 m (toVal b)
          [(1 : ℚ), (9007199254738807 : ℚ) / 2 ^ 53, (1125899906843079 : ℚ) / 2 ^ 51, (6004804084622823 : ℚ) / 2 ^ 55, (6004799503790659 : ℚ) / 2 ^ 57]) := by
        linarith [hVa]
      have hWa : 1 - 1/33554432 ≤ 1 + toVal b := by
        linarith [hx1, hb1]
      have hWb : 1 + toVal b < 1 := by
        linarith [hx2, hb2]
      have hWc : 1 - 1/16777216 < 1 + toVal b := by
        linarith [hx1, hb1]
      have hW0 : (0 : ℚ) ≤ 1 + toVal b := by linarith [hWa]
      rcases m with _ | _ | _ | _
      · rw [round32_nearest_one _ hVa (by linarith [hVb]),
          round32_nearest_one _ hWa (by linarith [hWb])]
      · rw [round32_up_below_one _ hVc (le_of_lt hVb),
          round32_up_below_one _ hWc (le_of_lt hWb)]
      · rw [round32_down_below_one _ (le_of_lt hVc) hVb,
          round32_down_below_one _ (le_of_lt hWc) hWb]
      · rw [round32_zero_eq_down _ hV0, round32_zero_eq_down _ hW0,
          round32_down_below_one _ (le_of_lt hVc) hVb,
          round32_down_below_one _ (le_of_lt hWc) hWb]

theorem claim_C5_witness :
    (0x32ffffff : ℕ) < 2 ^ 32 ∧ (0x32ffffff : ℕ) % 2 ^ 31 < 0x33000000 ∧
    expf 0x32ffffff RMode.nearest =
      some ⟨fadd32 RMode.nearest 0x3f800000 0x32ffffff, none⟩ :=
  ⟨by norm_num, by norm_num,
    claim_C5 0x32ffffff RMode.nearest (by norm_num) (by norm_num)⟩
